import Mathlib

/-!
# A verification development for the able-script statement parser

This file gives a shallow embedding of `src/parser/ops.rs`: the statement
dispatcher (`Parser::parse_ops`), the left-to-right expression folder
(`Parser::parse_operation` and the `gen_infix!`-generated operator
functions), the primary-expression reader (`Parser::parse_expr`), the
parenthesis reader (`Parser::parse_paren`), the assignment reader
(`Parser::parse_assignment`) and the function-call reader
(`Parser::fn_call`), together with proofs about their behaviour.

The token, value, expression, statement and error data types, and the
lexer interface, are defined outside the translated source file; they are
modelled from the specification (sections 3 and 6), as noted on each such
definition.  All parsing functions are translated directly from the
source.  Rust's implicit recursion/loops are rendered as fuel-indexed
recursion: every function takes a fuel argument, returns `none` when the
fuel runs out, and each call site passes the decremented fuel, so that a
result of the form `some r` is exactly a result the source program
produces.
-/

/-- Modelled from the spec (section 3): a `Span` is a start/end byte-offset
range into the source text (Rust's `Range<usize>`); the `end` field is
called `stop` because `end` is a Lean keyword. -/
structure Span where
  start : Nat
  stop : Nat
deriving DecidableEq, Repr

/-- Modelled from the spec (section 3): the three-state "almost-boolean"
truth value.  Its inhabitants never matter for parsing; the parser moves
the payload through unchanged. -/
inductive Abool where
  | never
  | sometimes
  | always
deriving DecidableEq, Repr

/-- Modelled from the spec (section 3): the lexer's token type, one
constructor per tagged value listed there, with the constructor names used
by the source (`Token::Boolean`, `Token::Integer`, ..., `Token::LogOr`). -/
inductive Token where
  | Boolean (b : Bool)
  | Integer (i : Int)
  | String (s : String)
  | Aboolean (a : Abool)
  | Identifier (i : String)
  | Nul
  | LogNot
  | LeftParenthesis
  | RightParenthesis
  | Comma
  | Semicolon
  | Print
  | Assignment
  | Addition
  | Subtract
  | Multiply
  | Divide
  | OpLt
  | OpGt
  | OpEq
  | OpNeq
  | LogAnd
  | LogOr
deriving DecidableEq, Repr

/-- Modelled from the spec (section 3): `SpannedToken` is a `(Token, Span)`
pair. -/
abbrev SpannedToken := Token × Span

/-- Modelled from the spec (section 3): the identifier name wrapper
(`Iden(i)` in the source). -/
structure Iden where
  name : String
deriving DecidableEq, Repr

/-- Modelled from the spec (section 3): the literal value domain, with the
constructor names used by the source (`Value::Bool`, ..., `Value::Nul`). -/
inductive Value where
  | Bool (b : Bool)
  | Int (i : Int)
  | Str (s : String)
  | Abool (a : Abool)
  | Nul
deriving DecidableEq, Repr

/-- Modelled from the spec (section 3): the expression tree.  The source
builds expressions both as `Expr::new(kind, span)` (a kind paired with a
span) and, in the `gen_infix!` macro, as bare `Expr::Add { left, right }`
without a span.  The embedding flattens the kind/span pair into one
inductive: each constructor carries the `ExprKind` payload of the spec
plus the node's `span` field. -/
inductive Expr where
  | Literal (v : Value) (span : Span)
  | Identifier (i : Iden) (span : Span)
  | Not (e : Expr) (span : Span)
  | Add (left : Expr) (right : Expr) (span : Span)
  | Subtract (left : Expr) (right : Expr) (span : Span)
  | Multiply (left : Expr) (right : Expr) (span : Span)
  | Divide (left : Expr) (right : Expr) (span : Span)
  | Lt (left : Expr) (right : Expr) (span : Span)
  | Gt (left : Expr) (right : Expr) (span : Span)
  | Eq (left : Expr) (right : Expr) (span : Span)
  | Neq (left : Expr) (right : Expr) (span : Span)
  | And (left : Expr) (right : Expr) (span : Span)
  | Or (left : Expr) (right : Expr) (span : Span)
deriving DecidableEq, Repr

/-- The `span` field of an expression node (`expr.span` in the source). -/
def Expr.span : Expr → Span
  | .Literal _ s => s
  | .Identifier _ s => s
  | .Not _ s => s
  | .Add _ _ s => s
  | .Subtract _ _ s => s
  | .Multiply _ _ s => s
  | .Divide _ _ s => s
  | .Lt _ _ s => s
  | .Gt _ _ s => s
  | .Eq _ _ s => s
  | .Neq _ _ s => s
  | .And _ _ s => s
  | .Or _ _ s => s

/-- Modelled from the spec (section 3): statements. -/
inductive Stmt where
  | Print (e : Expr)
  | VarAssignment (iden : Iden) (value : Expr)
  | FunctionCall (iden : Iden) (args : List Expr)
deriving DecidableEq, Repr

/-- Modelled from the spec (section 3): the dispatcher's return type, the
union of a statement and a bare expression-statement (the `.into()`
conversions in the source). -/
inductive ParseNode where
  | stmt (s : Stmt)
  | expr (e : Expr)
deriving DecidableEq, Repr

/-- Modelled from the spec (sections 3 and 7): the three error kinds. -/
inductive ErrorKind where
  | UnexpectedToken
  | InvalidIdentifier
  | EndOfTokenStream
deriving DecidableEq, Repr

/-- Modelled from the spec (sections 3 and 7): a tagged error with the span
at which the problem was detected. -/
structure Error where
  kind : ErrorKind
  span : Span
deriving DecidableEq, Repr

/-- `Error::unexpected_token(span)`: the constructor is defined outside the
translated file; its use sites pass the offending token's span, which the
spec (section 7) says the error carries. -/
def Error.unexpected_token (span : Span) : Error :=
  ⟨ErrorKind.UnexpectedToken, span⟩

/-- `Error::end_of_token_stream()`: the constructor is defined outside the
translated file and receives no positional information at its use sites;
modelled with the zero span.  No theorem below depends on the span this
error carries. -/
def Error.end_of_token_stream : Error :=
  ⟨ErrorKind.EndOfTokenStream, ⟨0, 0⟩⟩

/-- Modelled from the spec (section 6): the lexer is a pull-based source of
spanned tokens with one-token lookahead, "plus a way to obtain the span of
the current lexer position".  The embedding keeps the not-yet-consumed
tokens and the span of the most recently consumed token (`curSpan`, what
`self.lexer.span()` returns). -/
structure Lexer where
  tokens : List SpannedToken
  curSpan : Span
deriving DecidableEq, Repr

/-- `self.lexer.peek()`: inspect the next token without consuming it. -/
def Lexer.peek (l : Lexer) : Option SpannedToken :=
  l.tokens.head?

/-- `self.lexer.next()`: consume and return the next token, advancing the
current-position span. -/
def Lexer.next (l : Lexer) : Option SpannedToken × Lexer :=
  match l.tokens with
  | [] => (none, l)
  | t :: ts => (some t, ⟨ts, t.2⟩)

/-- `self.lexer.span()`: the span of the current lexer position. -/
def Lexer.span (l : Lexer) : Span :=
  l.curSpan

/-- The parser state: the lexer plus the immutable themed-rewrite toggle
`tdark` read by `Parser::parse_expr` (spec section 4.3: a construction-time
boolean configuration option). -/
structure Parser where
  lexer : Lexer
  tdark : Bool
deriving DecidableEq, Repr

/-- State-passing form of `self.lexer.next()` on the parser. -/
def Parser.next (p : Parser) : Option SpannedToken × Parser :=
  match p.lexer.next with
  | (t, l) => (t, ⟨l, p.tdark⟩)

/-- State-passing form of `self.lexer.peek()` on the parser. -/
def Parser.peek (p : Parser) : Option SpannedToken :=
  p.lexer.peek

/-- Modelled from the spec (sections 4.1 and 4.5): `Parser::require(token)`
is defined outside the translated file; it consumes the next token and
requires it to equal the expected one ("require (and consume) a trailing
semicolon").  A mismatch is an `UnexpectedToken` at the consumed token's
span; a missing token is `EndOfTokenStream`. -/
def Parser.require (p : Parser) (t : Token) : Except Error Parser :=
  match p.next with
  | (some (t2, span), p2) =>
    if t2 = t then Except.ok p2 else Except.error (Error.unexpected_token span)
  | (none, p2) => Except.error ⟨ErrorKind.EndOfTokenStream, p2.lexer.span⟩

/-- `self.unexpected_token(None)` in `Parser::fn_call`: the method is
defined outside the translated file; the spec (section 4.5) notes the
error it produces is an `UnexpectedToken` "reported with no specific span
... a known imprecision".  Modelled with the lexer's current-position span
when no token is supplied.  No theorem below depends on the span this
error carries. -/
def Parser.unexpected_token (p : Parser) (t : Option SpannedToken) : Error :=
  match t with
  | some (_, span) => Error.unexpected_token span
  | none => Error.unexpected_token p.lexer.span

/-- The `l.replace("lang", "script")` calls in `Parser::parse_expr`,
rendered on character lists: replace every leftmost non-overlapping
occurrence of `lang` with `script` (the semantics of Rust's
`str::replace`). -/
def replaceLang : List Char → List Char
  | [] => []
  | 'l' :: 'a' :: 'n' :: 'g' :: rest => 's' :: 'c' :: 'r' :: 'i' :: 'p' :: 't' :: replaceLang rest
  | c :: rest => c :: replaceLang rest

/-- String form of `replaceLang`: `s.replace("lang", "script")`. -/
def tdarkReplace (s : String) : String :=
  ⟨replaceLang s.data⟩

/-- Does `lang` occur at the head of the character list?  (Used to state
the themed-rewrite idempotence property.) -/
def startsLang : List Char → Bool
  | 'l' :: 'a' :: 'n' :: 'g' :: _ => true
  | _ => false

/-- Does `lang` occur anywhere in the character list? -/
def containsLang : List Char → Bool
  | [] => false
  | c :: rest => startsLang (c :: rest) || containsLang rest

/-- The ten binary-operator tags handled by `Parser::parse_operation`, in
source order. -/
inductive BinOp where
  | add
  | sub
  | mul
  | div
  | lt
  | gt
  | eq
  | neq
  | and
  | or
deriving DecidableEq, Repr

/-- The token `Parser::parse_operation` maps to each operator. -/
def BinOp.token : BinOp → Token
  | .add => Token.Addition
  | .sub => Token.Subtract
  | .mul => Token.Multiply
  | .div => Token.Divide
  | .lt => Token.OpLt
  | .gt => Token.OpGt
  | .eq => Token.OpEq
  | .neq => Token.OpNeq
  | .and => Token.LogAnd
  | .or => Token.LogOr

/-- The binary node each `gen_infix!`-generated function builds:
`Expr::$type { left: Box::new(left), right: Box::new(right) }`.  The
source supplies no span for these nodes (in contrast to every
`Expr::new(kind, span)` call in `parse_expr`); the embedding records that
omission as the zero span. -/
def BinOp.node : BinOp → Expr → Expr → Expr
  | .add, l, r => Expr.Add l r ⟨0, 0⟩
  | .sub, l, r => Expr.Subtract l r ⟨0, 0⟩
  | .mul, l, r => Expr.Multiply l r ⟨0, 0⟩
  | .div, l, r => Expr.Divide l r ⟨0, 0⟩
  | .lt, l, r => Expr.Lt l r ⟨0, 0⟩
  | .gt, l, r => Expr.Gt l r ⟨0, 0⟩
  | .eq, l, r => Expr.Eq l r ⟨0, 0⟩
  | .neq, l, r => Expr.Neq l r ⟨0, 0⟩
  | .and, l, r => Expr.And l r ⟨0, 0⟩
  | .or, l, r => Expr.Or l r ⟨0, 0⟩

mutual

/-- `Parser::parse_expr` (src/src/parser/ops.rs lines 119-154): map one
token to a primary expression, recursing through logical-not and
parentheses. -/
def parse_expr : Nat → Parser → Option SpannedToken → Option (Except Error (Expr × Parser))
  | 0, _, _ => none
  | _ + 1, _, none => some (Except.error Error.end_of_token_stream)
  | fuel + 1, p, some (t, span) =>
    match t with
    | Token.Boolean b => some (Except.ok (Expr.Literal (Value.Bool b) span, p))
    | Token.Integer i => some (Except.ok (Expr.Literal (Value.Int i) span, p))
    | Token.String s =>
      some (Except.ok (Expr.Literal (Value.Str (if p.tdark then tdarkReplace s else s)) span, p))
    | Token.Aboolean a => some (Except.ok (Expr.Literal (Value.Abool a) span, p))
    | Token.Identifier i =>
      some (Except.ok (Expr.Identifier ⟨if p.tdark then tdarkReplace i else i⟩ span, p))
    | Token.Nul => some (Except.ok (Expr.Literal Value.Nul span, p))
    | Token.LogNot =>
      match p.next with
      | (next, p2) =>
        match parse_expr fuel p2 next with
        | none => none
        | some (Except.error e) => some (Except.error e)
        | some (Except.ok (expr, p3)) =>
          some (Except.ok (Expr.Not expr ⟨span.start, expr.span.stop⟩, p3))
    | Token.LeftParenthesis => parse_paren fuel p
    | _ => some (Except.error (Error.unexpected_token span))

/-- `Parser::parse_paren` (lines 157-171), the part before the loop:
consume the next token, parse it as a primary expression, then enter the
fold loop. -/
def parse_paren : Nat → Parser → Option (Except Error (Expr × Parser))
  | 0, _ => none
  | fuel + 1, p =>
    match p.next with
    | (next, p2) =>
      match parse_expr fuel p2 next with
      | none => none
      | some (Except.error e) => some (Except.error e)
      | some (Except.ok (buf, p3)) => parse_paren_loop fuel p3 buf

/-- The `loop` of `Parser::parse_paren`: a peeked right parenthesis is
consumed and ends the group; end of stream ends the group as-is; any other
token is folded through `parse_operation`. -/
def parse_paren_loop : Nat → Parser → Expr → Option (Except Error (Expr × Parser))
  | 0, _, _ => none
  | fuel + 1, p, buf =>
    match p.peek with
    | some (Token.RightParenthesis, _) => some (Except.ok (buf, (p.next).2))
    | none => some (Except.ok (buf, p))
    | some t =>
      match parse_operation fuel p (some t) buf with
      | none => none
      | some (Except.error e) => some (Except.error e)
      | some (Except.ok (buf2, p2)) => parse_paren_loop fuel p2 buf2

/-- `Parser::parse_operation` (lines 50-67): dispatch a peeked operator
token to its `gen_infix!`-generated function; any other token (the source
names `Token::LeftParenthesis` explicitly before the catch-all, with the
same result) is an `UnexpectedToken` at its span, and a missing token is
`EndOfTokenStream`. -/
def parse_operation : Nat → Parser → Option SpannedToken → Expr → Option (Except Error (Expr × Parser))
  | 0, _, _, _ => none
  | fuel + 1, p, token, buf =>
    match token with
    | some (Token.Addition, _) => gen_infix_fn fuel p buf BinOp.add
    | some (Token.Subtract, _) => gen_infix_fn fuel p buf BinOp.sub
    | some (Token.Multiply, _) => gen_infix_fn fuel p buf BinOp.mul
    | some (Token.Divide, _) => gen_infix_fn fuel p buf BinOp.div
    | some (Token.OpLt, _) => gen_infix_fn fuel p buf BinOp.lt
    | some (Token.OpGt, _) => gen_infix_fn fuel p buf BinOp.gt
    | some (Token.OpEq, _) => gen_infix_fn fuel p buf BinOp.eq
    | some (Token.OpNeq, _) => gen_infix_fn fuel p buf BinOp.neq
    | some (Token.LogAnd, _) => gen_infix_fn fuel p buf BinOp.and
    | some (Token.LogOr, _) => gen_infix_fn fuel p buf BinOp.or
    | some (_, span) => some (Except.error (Error.unexpected_token span))
    | none => some (Except.error Error.end_of_token_stream)

/-- The expansion of the `gen_infix!` macro (lines 8-19): the ten generated
functions (`addition`, `subtract`, ..., `logor`) differ only in the
constructor they apply, so they are embedded as one function indexed by
the operator tag.  Each consumes the (peeked) operator token, consumes the
next token, parses it as one primary expression, and builds the binary
node. -/
def gen_infix_fn : Nat → Parser → Expr → BinOp → Option (Except Error (Expr × Parser))
  | 0, _, _, _ => none
  | fuel + 1, p, left, op =>
    match (p.next).2.next with
    | (next, p2) =>
      match parse_expr fuel p2 next with
      | none => none
      | some (Except.error e) => some (Except.error e)
      | some (Except.ok (right, p3)) => some (Except.ok (op.node left right, p3))

end

/-- `Parser::fn_call` (lines 174-203), after the closing parenthesis:
`self.require(Token::Semicolon)` and production of the function-call
statement. -/
def fn_call_finish (p : Parser) (iden : Iden) (args : List Expr) : Option (Except Error (ParseNode × Parser)) :=
  match p.require Token.Semicolon with
  | Except.error e => some (Except.error e)
  | Except.ok p2 => some (Except.ok (ParseNode.stmt (Stmt.FunctionCall iden args), p2))

/-- The `loop` of `Parser::fn_call`: fetch the next token; a right
parenthesis ends the (possibly empty) argument list; otherwise the token
is parsed as exactly one primary expression and pushed, after which a
right parenthesis ends the list, a comma continues it, and anything else
is an `UnexpectedToken` with no specific span. -/
def fn_call_loop : Nat → Parser → Iden → List Expr → Option (Except Error (ParseNode × Parser))
  | 0, _, _, _ => none
  | fuel + 1, p, iden, args =>
    match p.next with
    | (some (Token.RightParenthesis, _), p2) => fn_call_finish p2 iden args
    | (next, p2) =>
      match parse_expr fuel p2 next with
      | none => none
      | some (Except.error e) => some (Except.error e)
      | some (Except.ok (arg, p3)) =>
        match p3.next with
        | (some (Token.RightParenthesis, _), p4) => fn_call_finish p4 iden (args ++ [arg])
        | (some (Token.Comma, _), p4) => fn_call_loop fuel p4 iden (args ++ [arg])
        | (_, p4) => some (Except.error (p4.unexpected_token none))

/-- `Parser::fn_call` (lines 174-203): the callee token must be an
identifier (else `InvalidIdentifier` at the lexer's current span), then
the opening parenthesis is consumed and the argument loop runs. -/
def fn_call : Nat → Parser → SpannedToken → Option (Except Error (ParseNode × Parser))
  | 0, _, _ => none
  | fuel + 1, p, token =>
    match token.1 with
    | Token.Identifier i => fn_call_loop fuel ((p.next).2) ⟨i⟩ []
    | _ => some (Except.error ⟨ErrorKind.InvalidIdentifier, p.lexer.span⟩)

/-- The `loop` of `Parser::parse_assignment` (lines 86-98): a peeked
semicolon breaks the loop (and is then consumed, line 100); end of stream
is an `EndOfTokenStream` at the lexer's current span; any other token is
folded through `parse_operation`. -/
def parse_assignment_loop : Nat → Parser → Iden → Expr → Option (Except Error (ParseNode × Parser))
  | 0, _, _, _ => none
  | fuel + 1, p, iden, value =>
    match p.peek with
    | some (Token.Semicolon, _) =>
      some (Except.ok (ParseNode.stmt (Stmt.VarAssignment iden value), (p.next).2))
    | none => some (Except.error ⟨ErrorKind.EndOfTokenStream, p.lexer.span⟩)
    | some t =>
      match parse_operation fuel p (some t) value with
      | none => none
      | some (Except.error e) => some (Except.error e)
      | some (Except.ok (value2, p2)) => parse_assignment_loop fuel p2 iden value2

/-- `Parser::parse_assignment` (lines 69-103): eat the assignment operator,
require the target token to be an identifier (else `InvalidIdentifier` at
the lexer's current span), parse the next token as a primary expression,
and run the fold loop. -/
def parse_assignment : Nat → Parser → SpannedToken → Option (Except Error (ParseNode × Parser))
  | 0, _, _ => none
  | fuel + 1, p, token =>
    match (p.next).2 with
    | p2 =>
      match token.1 with
      | Token.Identifier i =>
        match p2.next with
        | (next, p3) =>
          match parse_expr fuel p3 next with
          | none => none
          | some (Except.error e) => some (Except.error e)
          | some (Except.ok (value, p4)) => parse_assignment_loop fuel p4 ⟨i⟩ value
      | _ => some (Except.error ⟨ErrorKind.InvalidIdentifier, p2.lexer.span⟩)

/-- The `loop` of `Parser::parse_ops` (lines 32-46): a peeked print keyword
is consumed, a semicolon is required, and a print statement is returned;
end of stream returns the accumulated expression as a bare
expression-statement; any other token is folded through
`parse_operation`. -/
def parse_ops_loop : Nat → Parser → Expr → Option (Except Error (ParseNode × Parser))
  | 0, _, _ => none
  | fuel + 1, p, buf =>
    match p.peek with
    | some (Token.Print, _) =>
      match ((p.next).2).require Token.Semicolon with
      | Except.error e => some (Except.error e)
      | Except.ok p2 => some (Except.ok (ParseNode.stmt (Stmt.Print buf), p2))
    | none => some (Except.ok (ParseNode.expr buf, p))
    | some t =>
      match parse_operation fuel p (some t) buf with
      | none => none
      | some (Except.error e) => some (Except.error e)
      | some (Except.ok (buf2, p2)) => parse_ops_loop fuel p2 buf2

/-- `Parser::parse_ops` (lines 22-47): the statement dispatcher.  A peeked
left parenthesis dispatches to the function-call reader, a peeked
assignment operator to the assignment reader; otherwise the current token
is parsed as a primary expression and the fold loop runs. -/
def parse_ops : Nat → Parser → SpannedToken → Option (Except Error (ParseNode × Parser))
  | 0, _, _ => none
  | fuel + 1, p, token =>
    match p.peek with
    | some (Token.LeftParenthesis, _) => fn_call fuel p token
    | some (Token.Assignment, _) => parse_assignment fuel p token
    | _ =>
      match parse_expr fuel p (some token) with
      | none => none
      | some (Except.error e) => some (Except.error e)
      | some (Except.ok (buf, p2)) => parse_ops_loop fuel p2 buf

/-- Modelled from the spec (sections 2 and 6): the statement driver outside
the translated file consumes the first token of a statement and hands it to
`Parser::parse_ops`.  The fuel `3 * length + 3` is sufficient for every
token list (the lemmas below establish the bounds actually used); an empty
token list yields no statement. -/
def parse (tdark : Bool) (tokens : List SpannedToken) : Option (Except Error (ParseNode × Parser)) :=
  match tokens with
  | [] => none
  | t :: ts => parse_ops (3 * tokens.length + 3) ⟨⟨ts, t.2⟩, tdark⟩ t

/-- Forget the final parser state of a parse outcome, keeping the produced
node or error. -/
def parsedNode (r : Option (Except Error (ParseNode × Parser))) : Option (Except Error ParseNode) :=
  match r with
  | none => none
  | some (Except.error e) => some (Except.error e)
  | some (Except.ok (n, _)) => some (Except.ok n)

/-- The kind of the error a parse outcome produced, if any. -/
def errorKindOf (r : Option (Except Error (ParseNode × Parser))) : Option ErrorKind :=
  match r with
  | some (Except.error e) => some e.kind
  | _ => none

instance instDecEqExcept {ε α : Type} [DecidableEq ε] [DecidableEq α] :
    DecidableEq (Except ε α) := fun a b =>
  match a, b with
  | Except.ok x, Except.ok y =>
    if h : x = y then Decidable.isTrue (by rw [h])
    else Decidable.isFalse (fun hh => by cases hh; exact h rfl)
  | Except.error x, Except.error y =>
    if h : x = y then Decidable.isTrue (by rw [h])
    else Decidable.isFalse (fun hh => by cases hh; exact h rfl)
  | Except.ok _, Except.error _ => Decidable.isFalse (fun hh => by cases hh)
  | Except.error _, Except.ok _ => Decidable.isFalse (fun hh => by cases hh)

/-! ## Primary-expression shapes

`Prim` enumerates exactly the primary expressions of the grammar (spec
glossary: literal, identifier, unary-not, or parenthesized group, the
group containing a primary followed by operator/primary fold pairs), with
the spans of the tokens that spell them.  `Folds` is a list of pending
operator/primary pairs, as folded by the loops of `parse_ops`,
`parse_paren` and `parse_assignment`. -/

mutual

inductive Prim where
  | atom (t : Token) (s : Span)
  | lognot (s : Span) (p : Prim)
  | paren (sl : Span) (sr : Span) (p : Prim) (rest : Folds)

inductive Folds where
  | nil
  | cons (op : BinOp) (s : Span) (q : Prim) (rest : Folds)

end

/-- The first token spelling a primary. -/
def Prim.headTok : Prim → SpannedToken
  | .atom t s => (t, s)
  | .lognot s _ => (Token.LogNot, s)
  | .paren sl _ _ _ => (Token.LeftParenthesis, sl)

mutual

/-- The tokens spelling a primary, after its first token. -/
def Prim.tailTokens : Prim → List SpannedToken
  | .atom _ _ => []
  | .lognot _ p => p.headTok :: p.tailTokens
  | .paren _ sr p rest =>
    (p.headTok :: p.tailTokens) ++ (Folds.tokens rest ++ [(Token.RightParenthesis, sr)])

/-- The tokens spelling a list of operator/primary fold pairs. -/
def Folds.tokens : Folds → List SpannedToken
  | .nil => []
  | .cons op s q rest => (op.token, s) :: ((q.headTok :: q.tailTokens) ++ Folds.tokens rest)

end

/-- The tokens spelling a primary. -/
def Prim.tokens (P : Prim) : List SpannedToken :=
  P.headTok :: P.tailTokens

/-- The span of the last token of a primary (what the lexer's
current-position span is after the primary has been consumed). -/
def Prim.lastSpan : Prim → Span
  | .atom _ s => s
  | .lognot _ p => p.lastSpan
  | .paren _ sr _ _ => sr

/-- The span of the last token of a fold list, given the span current
before it. -/
def Folds.lastSpan (c : Span) : Folds → Span
  | .nil => c
  | .cons _ _ q rest => Folds.lastSpan q.lastSpan rest

/-- The tokens a lone `parse_expr` call accepts: boolean, integer, string,
almost-boolean, identifier and null literals. -/
def Token.isAtomicPrim : Token → Bool
  | .Boolean _ => true
  | .Integer _ => true
  | .String _ => true
  | .Aboolean _ => true
  | .Identifier _ => true
  | .Nul => true
  | _ => false

/-- The expression node `parse_expr` builds from one atomic token (the
fallback value for non-atomic tokens is never used under `Prim.WF`). -/
def atomicExpr (td : Bool) (t : Token) (s : Span) : Expr :=
  match t with
  | Token.Boolean b => Expr.Literal (Value.Bool b) s
  | Token.Integer i => Expr.Literal (Value.Int i) s
  | Token.String str => Expr.Literal (Value.Str (if td then tdarkReplace str else str)) s
  | Token.Aboolean a => Expr.Literal (Value.Abool a) s
  | Token.Identifier i => Expr.Identifier ⟨if td then tdarkReplace i else i⟩ s
  | _ => Expr.Literal Value.Nul s

mutual

/-- The expression a primary denotes, under the given themed-rewrite
mode.  A not-node's span runs from the `!` to the inner expression's end,
as built by `parse_expr`; a parenthesized group denotes its folded
contents. -/
def Prim.den (td : Bool) : Prim → Expr
  | .atom t s => atomicExpr td t s
  | .lognot s p =>
    Expr.Not (Prim.den td p) ⟨s.start, (Prim.den td p).span.stop⟩
  | .paren _ _ p rest => Folds.den td (Prim.den td p) rest

/-- Left-to-right folding of operator/primary pairs onto an accumulated
expression, as performed by the fold loops. -/
def Folds.den (td : Bool) (buf : Expr) : Folds → Expr
  | .nil => buf
  | .cons op _ q rest => Folds.den td (op.node buf (Prim.den td q)) rest

end

mutual

/-- Well-formedness: every atom is an atomic token. -/
def Prim.WF : Prim → Bool
  | .atom t _ => t.isAtomicPrim
  | .lognot _ p => Prim.WF p
  | .paren _ _ p rest => Prim.WF p && Folds.WF rest

def Folds.WF : Folds → Bool
  | .nil => true
  | .cons _ _ q rest => Prim.WF q && Folds.WF rest

end

mutual

/-- Fuel sufficient for `parse_expr` on this primary. -/
def Prim.fuelF : Prim → Nat
  | .atom _ _ => 1
  | .lognot _ p => Prim.fuelF p + 1
  | .paren _ _ p rest => Prim.fuelF p + Folds.fuelF rest + 2

/-- Fuel sufficient for the fold loops on this fold list. -/
def Folds.fuelF : Folds → Nat
  | .nil => 1
  | .cons _ _ q rest => Prim.fuelF q + Folds.fuelF rest + 3

end

/-- A primary is dispatch-safe as the first element of a statement when its
second token is not a left parenthesis, so that `parse_ops`'s entry peek
does not divert the statement to the function-call reader.  (An atom's
successor token is whatever follows the primary, which the theorems below
control separately; a statement starting `!(` or `((` is diverted.) -/
def Prim.dispatchSafe : Prim → Bool
  | .atom _ _ => true
  | .lognot _ p =>
    match p.headTok.1 with
    | Token.LeftParenthesis => false
    | _ => true
  | .paren _ _ p _ =>
    match p.headTok.1 with
    | Token.LeftParenthesis => false
    | _ => true

/-- Is the statement *not* diverted by `parse_ops`'s entry peek?  True when
the stream after the first statement token does not begin with a left
parenthesis or an assignment operator. -/
def notDispatch : List SpannedToken → Bool
  | (Token.LeftParenthesis, _) :: _ => false
  | (Token.Assignment, _) :: _ => false
  | _ => true

/-- Does the `outer` span cover the `inner` span? -/
def Span.covers (outer inner : Span) : Bool :=
  decide (outer.start ≤ inner.start) && decide (inner.stop ≤ outer.stop)

/-- Node count of an expression tree. -/
def Expr.size : Expr → Nat
  | .Literal _ _ => 1
  | .Identifier _ _ => 1
  | .Not e _ => e.size + 1
  | .Add l r _ => l.size + r.size + 1
  | .Subtract l r _ => l.size + r.size + 1
  | .Multiply l r _ => l.size + r.size + 1
  | .Divide l r _ => l.size + r.size + 1
  | .Lt l r _ => l.size + r.size + 1
  | .Gt l r _ => l.size + r.size + 1
  | .Eq l r _ => l.size + r.size + 1
  | .Neq l r _ => l.size + r.size + 1
  | .And l r _ => l.size + r.size + 1
  | .Or l r _ => l.size + r.size + 1

/-- The left operand of a binary node, if any. -/
def Expr.leftChild : Expr → Option Expr
  | .Add l _ _ => some l
  | .Subtract l _ _ => some l
  | .Multiply l _ _ => some l
  | .Divide l _ _ => some l
  | .Lt l _ _ => some l
  | .Gt l _ _ => some l
  | .Eq l _ _ => some l
  | .Neq l _ _ => some l
  | .And l _ _ => some l
  | .Or l _ _ => some l
  | _ => none

/-! ## The parser on primary-expression token streams -/

theorem Prim.headTok_atom (t : Token) (s : Span) : (Prim.atom t s).headTok = (t, s) := rfl

theorem Prim.headTok_lognot (s : Span) (p : Prim) :
    (Prim.lognot s p).headTok = (Token.LogNot, s) := rfl

theorem Prim.headTok_paren (sl sr : Span) (p : Prim) (rest : Folds) :
    (Prim.paren sl sr p rest).headTok = (Token.LeftParenthesis, sl) := rfl

theorem Prim.lastSpan_atom (t : Token) (s : Span) : (Prim.atom t s).lastSpan = s := rfl

theorem Prim.lastSpan_lognot (s : Span) (p : Prim) :
    (Prim.lognot s p).lastSpan = p.lastSpan := rfl

theorem Prim.lastSpan_paren (sl sr : Span) (p : Prim) (rest : Folds) :
    (Prim.paren sl sr p rest).lastSpan = sr := rfl

theorem prim_fuel_pos (P : Prim) : 1 ≤ P.fuelF := by
  cases P <;> simp [Prim.fuelF]

theorem folds_fuel_pos (R : Folds) : 1 ≤ R.fuelF := by
  cases R <;> simp [Folds.fuelF]

/-- `parse_operation` sends a peeked operator token to its
`gen_infix!`-generated function with the remaining fuel. -/
theorem parse_operation_op (op : BinOp) (fuel : Nat) (p : Parser) (s : Span) (buf : Expr) :
    parse_operation (fuel + 1) p (some (op.token, s)) buf = gen_infix_fn fuel p buf op := by
  cases op <;> rfl

/-- An operator token is never a right parenthesis, print keyword,
semicolon, left parenthesis or assignment token. -/
theorem BinOp.token_ne (op : BinOp) :
    op.token ≠ Token.RightParenthesis ∧ op.token ≠ Token.Print ∧
    op.token ≠ Token.Semicolon ∧ op.token ≠ Token.LeftParenthesis ∧
    op.token ≠ Token.Assignment := by
  cases op <;> simp [BinOp.token]

/-- The parenthesis fold loop falls into its `parse_operation` arm on any
peeked token other than a right parenthesis. -/
theorem parse_paren_loop_step (fuel : Nat) (tok : Token) (s : Span) (ts : List SpannedToken)
    (c : Span) (td : Bool) (buf : Expr) (hnot : tok ≠ Token.RightParenthesis) :
    parse_paren_loop (fuel + 1) ⟨⟨(tok, s) :: ts, c⟩, td⟩ buf =
      match parse_operation fuel ⟨⟨(tok, s) :: ts, c⟩, td⟩ (some (tok, s)) buf with
      | none => none
      | some (Except.error e) => some (Except.error e)
      | some (Except.ok (buf2, p2)) => parse_paren_loop fuel p2 buf2 := by
  cases tok <;> first
    | rfl
    | exact absurd rfl hnot

mutual

/-- `parse_expr`, handed the first token of a well-formed primary with the
primary's remaining tokens at the front of the stream, consumes exactly the
primary's tokens and produces its denotation, for any sufficient fuel and
any following tokens. -/
theorem prim_ok (P : Prim) (hw : Prim.WF P = true) (fuel : Nat) (hf : Prim.fuelF P ≤ fuel)
    (td : Bool) (rest : List SpannedToken) :
    parse_expr fuel ⟨⟨P.tailTokens ++ rest, P.headTok.2⟩, td⟩ (some P.headTok)
      = some (Except.ok (Prim.den td P, ⟨⟨rest, P.lastSpan⟩, td⟩)) := by
  match P with
  | .atom t s =>
    rw [Prim.fuelF] at hf
    obtain ⟨f, rfl⟩ : ∃ f, fuel = f + 1 := ⟨fuel - 1, by omega⟩
    rw [Prim.WF] at hw
    cases t <;>
      simp_all [parse_expr, Prim.den, atomicExpr, Prim.tailTokens, Prim.headTok_atom,
        Prim.lastSpan_atom, Token.isAtomicPrim]
  | .lognot s p =>
    rw [Prim.WF] at hw
    rw [Prim.fuelF] at hf
    obtain ⟨f, rfl⟩ : ∃ f, fuel = f + 1 := ⟨fuel - 1, by omega⟩
    have ih := prim_ok p hw f (by omega) td rest
    simp only [Prim.tailTokens, Prim.headTok_lognot, List.cons_append]
    simp only [parse_expr, Parser.next, Lexer.next]
    rw [ih]
    simp [Prim.den, Prim.lastSpan_lognot]
  | .paren sl sr p R =>
    rw [Prim.WF, Bool.and_eq_true] at hw
    rw [Prim.fuelF] at hf
    obtain ⟨f, rfl⟩ : ∃ f, fuel = f + 1 := ⟨fuel - 1, by omega⟩
    obtain ⟨g, rfl⟩ : ∃ g, f = g + 1 := ⟨f - 1, by omega⟩
    have ih := prim_ok p hw.1 g (by omega) td
      (Folds.tokens R ++ ((Token.RightParenthesis, sr) :: rest))
    have ihR := folds_ok R hw.2 g (by omega) td (Prim.den td p) sr p.lastSpan rest
    simp only [Prim.tailTokens, Prim.headTok_paren, List.cons_append, List.append_assoc,
      List.singleton_append, List.nil_append]
    simp only [parse_expr, parse_paren, Parser.next, Lexer.next]
    rw [ih]
    simp only []
    rw [ihR]
    simp [Prim.den, Prim.lastSpan_paren]

/-- The parenthesis fold loop, handed a well-formed fold list followed by a
right parenthesis, folds the pairs left-to-right onto the accumulated
expression, consumes the closing parenthesis, and stops. -/
theorem folds_ok (R : Folds) (hw : Folds.WF R = true) (fuel : Nat) (hf : Folds.fuelF R ≤ fuel)
    (td : Bool) (buf : Expr) (sr c : Span) (rest : List SpannedToken) :
    parse_paren_loop fuel ⟨⟨Folds.tokens R ++ ((Token.RightParenthesis, sr) :: rest), c⟩, td⟩ buf
      = some (Except.ok (Folds.den td buf R, ⟨⟨rest, sr⟩, td⟩)) := by
  match R with
  | .nil =>
    rw [Folds.fuelF] at hf
    obtain ⟨f, rfl⟩ : ∃ f, fuel = f + 1 := ⟨fuel - 1, by omega⟩
    simp [Folds.tokens, parse_paren_loop, Parser.peek, Lexer.peek, Parser.next, Lexer.next,
      Folds.den]
  | .cons op s q R2 =>
    rw [Folds.WF, Bool.and_eq_true] at hw
    rw [Folds.fuelF] at hf
    obtain ⟨f, rfl⟩ : ∃ f, fuel = f + 1 := ⟨fuel - 1, by omega⟩
    obtain ⟨e, rfl⟩ : ∃ e, f = e + 1 := ⟨f - 1, by omega⟩
    obtain ⟨d, rfl⟩ : ∃ d, e = d + 1 := ⟨e - 1, by omega⟩
    have ihq := prim_ok q hw.1 d (by omega) td
      (Folds.tokens R2 ++ ((Token.RightParenthesis, sr) :: rest))
    have ihR := folds_ok R2 hw.2 (d + 1 + 1) (by omega) td
      (op.node buf (Prim.den td q)) sr q.lastSpan rest
    simp only [Folds.tokens, List.cons_append, List.append_assoc]
    rw [parse_paren_loop_step (d + 1 + 1) op.token s _ c td buf (BinOp.token_ne op).1]
    rw [parse_operation_op]
    simp only [gen_infix_fn, Parser.next, Lexer.next]
    rw [ihq]
    simp only []
    rw [ihR]
    simp [Folds.den]

end

/-- A `gen_infix!`-generated function, run with a well-formed primary's
tokens following the (peeked, still unconsumed) operator token: it consumes
the operator and the primary and builds the binary node on the accumulated
left operand.  The head token `h` is consumed without inspection. -/
theorem gen_infix_ok (op : BinOp) (q : Prim) (hq : Prim.WF q = true) (fuel : Nat)
    (hf : Prim.fuelF q + 1 ≤ fuel) (td : Bool) (h : SpannedToken)
    (rest : List SpannedToken) (c : Span) (buf : Expr) :
    gen_infix_fn fuel ⟨⟨h :: (q.headTok :: (q.tailTokens ++ rest)), c⟩, td⟩ buf op
      = some (Except.ok (op.node buf (Prim.den td q), ⟨⟨rest, q.lastSpan⟩, td⟩)) := by
  obtain ⟨f, rfl⟩ : ∃ f, fuel = f + 1 := ⟨fuel - 1, by omega⟩
  have ihq := prim_ok q hq f (by omega) td rest
  simp only [gen_infix_fn, Parser.next, Lexer.next]
  rw [ihq]

/-- The statement fold loop falls into its `parse_operation` arm on any
peeked token other than the print keyword. -/
theorem parse_ops_loop_step (fuel : Nat) (tok : Token) (s : Span) (ts : List SpannedToken)
    (c : Span) (td : Bool) (buf : Expr) (hnot : tok ≠ Token.Print) :
    parse_ops_loop (fuel + 1) ⟨⟨(tok, s) :: ts, c⟩, td⟩ buf =
      match parse_operation fuel ⟨⟨(tok, s) :: ts, c⟩, td⟩ (some (tok, s)) buf with
      | none => none
      | some (Except.error e) => some (Except.error e)
      | some (Except.ok (buf2, p2)) => parse_ops_loop fuel p2 buf2 := by
  cases tok <;> first
    | rfl
    | exact absurd rfl hnot

/-- The assignment fold loop falls into its `parse_operation` arm on any
peeked token other than a semicolon. -/
theorem parse_assignment_loop_step (fuel : Nat) (tok : Token) (s : Span)
    (ts : List SpannedToken) (c : Span) (td : Bool) (iden : Iden) (value : Expr)
    (hnot : tok ≠ Token.Semicolon) :
    parse_assignment_loop (fuel + 1) ⟨⟨(tok, s) :: ts, c⟩, td⟩ iden value =
      match parse_operation fuel ⟨⟨(tok, s) :: ts, c⟩, td⟩ (some (tok, s)) value with
      | none => none
      | some (Except.error e) => some (Except.error e)
      | some (Except.ok (value2, p2)) => parse_assignment_loop fuel p2 iden value2 := by
  cases tok <;> first
    | rfl
    | exact absurd rfl hnot

/-- The statement fold loop, handed a well-formed fold list at the end of
the stream, folds the pairs left-to-right and returns the result as a bare
expression-statement when the stream ends. -/
theorem folds_ops_end (R : Folds) (hw : Folds.WF R = true) (fuel : Nat)
    (hf : Folds.fuelF R ≤ fuel) (td : Bool) (buf : Expr) (c : Span) :
    parse_ops_loop fuel ⟨⟨Folds.tokens R, c⟩, td⟩ buf
      = some (Except.ok (ParseNode.expr (Folds.den td buf R), ⟨⟨[], Folds.lastSpan c R⟩, td⟩)) := by
  match R with
  | .nil =>
    rw [Folds.fuelF] at hf
    obtain ⟨f, rfl⟩ : ∃ f, fuel = f + 1 := ⟨fuel - 1, by omega⟩
    simp [Folds.tokens, parse_ops_loop, Parser.peek, Lexer.peek, Folds.den, Folds.lastSpan]
  | .cons op s q R2 =>
    rw [Folds.WF, Bool.and_eq_true] at hw
    rw [Folds.fuelF] at hf
    obtain ⟨f, rfl⟩ : ∃ f, fuel = f + 1 := ⟨fuel - 1, by omega⟩
    obtain ⟨e, rfl⟩ : ∃ e, f = e + 1 := ⟨f - 1, by omega⟩
    have ihR := folds_ops_end R2 hw.2 (e + 1) (by omega) td
      (op.node buf (Prim.den td q)) q.lastSpan
    simp only [Folds.tokens, List.cons_append, List.append_assoc]
    rw [parse_ops_loop_step (e + 1) op.token s _ c td buf (BinOp.token_ne op).2.1]
    rw [parse_operation_op]
    have hposq := prim_fuel_pos q
    have hposR := folds_fuel_pos R2
    rw [gen_infix_ok op q hw.1 e (by omega) td (op.token, s) (Folds.tokens R2) c buf]
    simp only []
    rw [ihR]
    simp [Folds.den, Folds.lastSpan]

/-- The parenthesis fold loop, handed a well-formed fold list at the end of
the stream (no closing parenthesis ever arrives), folds the pairs
left-to-right and returns the accumulated expression when the stream
ends - it does not fail. -/
theorem folds_paren_eos (R : Folds) (hw : Folds.WF R = true) (fuel : Nat)
    (hf : Folds.fuelF R ≤ fuel) (td : Bool) (buf : Expr) (c : Span) :
    parse_paren_loop fuel ⟨⟨Folds.tokens R, c⟩, td⟩ buf
      = some (Except.ok (Folds.den td buf R, ⟨⟨[], Folds.lastSpan c R⟩, td⟩)) := by
  match R with
  | .nil =>
    rw [Folds.fuelF] at hf
    obtain ⟨f, rfl⟩ : ∃ f, fuel = f + 1 := ⟨fuel - 1, by omega⟩
    simp [Folds.tokens, parse_paren_loop, Parser.peek, Lexer.peek, Folds.den, Folds.lastSpan]
  | .cons op s q R2 =>
    rw [Folds.WF, Bool.and_eq_true] at hw
    rw [Folds.fuelF] at hf
    obtain ⟨f, rfl⟩ : ∃ f, fuel = f + 1 := ⟨fuel - 1, by omega⟩
    obtain ⟨e, rfl⟩ : ∃ e, f = e + 1 := ⟨f - 1, by omega⟩
    have ihR := folds_paren_eos R2 hw.2 (e + 1) (by omega) td
      (op.node buf (Prim.den td q)) q.lastSpan
    simp only [Folds.tokens, List.cons_append, List.append_assoc]
    rw [parse_paren_loop_step (e + 1) op.token s _ c td buf (BinOp.token_ne op).1]
    rw [parse_operation_op]
    have hposq := prim_fuel_pos q
    have hposR := folds_fuel_pos R2
    rw [gen_infix_ok op q hw.1 e (by omega) td (op.token, s) (Folds.tokens R2) c buf]
    simp only []
    rw [ihR]
    simp [Folds.den, Folds.lastSpan]

/-- The assignment fold loop, handed a well-formed fold list at the end of
the stream (no semicolon ever arrives), folds the pairs left-to-right and
then fails with `EndOfTokenStream` when the stream ends. -/
theorem folds_asgn_eos (R : Folds) (hw : Folds.WF R = true) (fuel : Nat)
    (hf : Folds.fuelF R ≤ fuel) (td : Bool) (iden : Iden) (value : Expr) (c : Span) :
    parse_assignment_loop fuel ⟨⟨Folds.tokens R, c⟩, td⟩ iden value
      = some (Except.error ⟨ErrorKind.EndOfTokenStream, Folds.lastSpan c R⟩) := by
  match R with
  | .nil =>
    rw [Folds.fuelF] at hf
    obtain ⟨f, rfl⟩ : ∃ f, fuel = f + 1 := ⟨fuel - 1, by omega⟩
    simp [Folds.tokens, parse_assignment_loop, Parser.peek, Lexer.peek, Lexer.span,
      Folds.lastSpan]
  | .cons op s q R2 =>
    rw [Folds.WF, Bool.and_eq_true] at hw
    rw [Folds.fuelF] at hf
    obtain ⟨f, rfl⟩ : ∃ f, fuel = f + 1 := ⟨fuel - 1, by omega⟩
    obtain ⟨e, rfl⟩ : ∃ e, f = e + 1 := ⟨f - 1, by omega⟩
    have ihR := folds_asgn_eos R2 hw.2 (e + 1) (by omega) td iden
      (op.node value (Prim.den td q)) q.lastSpan
    simp only [Folds.tokens, List.cons_append, List.append_assoc]
    rw [parse_assignment_loop_step (e + 1) op.token s _ c td iden value
      (BinOp.token_ne op).2.2.1]
    rw [parse_operation_op]
    have hposq := prim_fuel_pos q
    have hposR := folds_fuel_pos R2
    rw [gen_infix_ok op q hw.1 e (by omega) td (op.token, s) (Folds.tokens R2) c value]
    simp only []
    rw [ihR]
    simp [Folds.lastSpan]

mutual

/-- The fuel bound of a primary is covered by three units per token. -/
theorem prim_fuel_le (P : Prim) : P.fuelF ≤ 3 * P.tailTokens.length + 3 := by
  match P with
  | .atom t s => simp [Prim.fuelF, Prim.tailTokens]
  | .lognot s p =>
    have ih := prim_fuel_le p
    simp only [Prim.fuelF, Prim.tailTokens, List.length_cons]
    omega
  | .paren sl sr p R =>
    have ih := prim_fuel_le p
    have ihR := folds_fuel_le R
    simp only [Prim.fuelF, Prim.tailTokens, List.length_append, List.length_cons]
    omega

/-- The fuel bound of a fold list is covered by three units per token. -/
theorem folds_fuel_le (R : Folds) : R.fuelF ≤ 3 * (Folds.tokens R).length + 1 := by
  match R with
  | .nil => simp [Folds.fuelF, Folds.tokens]
  | .cons op s q R2 =>
    have ih := prim_fuel_le q
    have ihR := folds_fuel_le R2
    simp only [Folds.fuelF, Folds.tokens, List.length_append, List.length_cons]
    omega

end


theorem notDispatch_nil : notDispatch [] = true := rfl

theorem notDispatch_cons (t : Token) (s : Span) (ts : List SpannedToken)
    (h1 : t ≠ Token.LeftParenthesis) (h2 : t ≠ Token.Assignment) :
    notDispatch ((t, s) :: ts) = true := by
  cases t <;> first
    | rfl
    | exact absurd rfl h1
    | exact absurd rfl h2

/-- A fold list's token stream never begins with a left parenthesis or
assignment operator (it is empty or begins with an operator token). -/
theorem notDispatch_folds (R : Folds) : notDispatch (Folds.tokens R) = true := by
  cases R with
  | nil => rfl
  | cons op s q R2 =>
    rw [Folds.tokens]
    exact notDispatch_cons op.token s _ (BinOp.token_ne op).2.2.2.1 (BinOp.token_ne op).2.2.2.2

/-- The first token of a well-formed primary is an atomic token, a
logical-not, or a left parenthesis - never a right parenthesis or an
assignment operator. -/
theorem prim_headTok_ne (p : Prim) (hw : Prim.WF p = true) :
    p.headTok.1 ≠ Token.RightParenthesis ∧ p.headTok.1 ≠ Token.Assignment := by
  cases p with
  | atom t s =>
    rw [Prim.WF] at hw
    cases t <;> simp_all [Token.isAtomicPrim, Prim.headTok_atom]
  | lognot s p => simp [Prim.headTok_lognot]
  | paren sl sr p R => simp [Prim.headTok_paren]

/-- A dispatch-safe primary's own continuation after its first token never
begins with a left parenthesis. -/
theorem dispatchSafe_inner (a : Prim) (hd : Prim.dispatchSafe a = true) :
    ∀ s p, (a = Prim.lognot s p ∨ ∃ sl sr R, a = Prim.paren sl sr p R) →
      p.headTok.1 ≠ Token.LeftParenthesis := by
  intro s p hshape hcontra
  rcases hshape with rfl | ⟨sl, sr, R, rfl⟩ <;>
    · simp only [Prim.dispatchSafe, hcontra] at hd
      exact absurd hd (by simp)

/-- The entry guard of `parse_ops` holds for any well-formed, dispatch-safe
primary followed by a guard-satisfying continuation. -/
theorem prim_guard (a : Prim) (hw : Prim.WF a = true) (hd : Prim.dispatchSafe a = true)
    (ts2 : List SpannedToken) (h2 : notDispatch ts2 = true) :
    notDispatch (a.tailTokens ++ ts2) = true := by
  cases a with
  | atom t s => simpa [Prim.tailTokens] using h2
  | lognot s p =>
    rw [Prim.WF] at hw
    rw [Prim.tailTokens, List.cons_append]
    rcases hpt : p.headTok with ⟨tok, sp⟩
    refine notDispatch_cons tok sp _ ?_ ?_
    · intro hcontra
      exact dispatchSafe_inner (Prim.lognot s p) hd s p (Or.inl rfl) (by rw [hpt, hcontra])
    · intro hcontra
      exact (prim_headTok_ne p hw).2 (by rw [hpt, hcontra])
  | paren sl sr p R =>
    rw [Prim.WF, Bool.and_eq_true] at hw
    rw [Prim.tailTokens, List.cons_append]
    rcases hpt : p.headTok with ⟨tok, sp⟩
    refine notDispatch_cons tok sp _ ?_ ?_
    · intro hcontra
      exact dispatchSafe_inner (Prim.paren sl sr p R) hd sl p
        (Or.inr ⟨sl, sr, R, rfl⟩) (by rw [hpt, hcontra])
    · intro hcontra
      exact (prim_headTok_ne p hw.1).2 (by rw [hpt, hcontra])

/-- When the entry peek is neither a left parenthesis nor an assignment
operator, `parse_ops` parses its token as a primary expression and enters
the statement fold loop. -/
theorem parse_ops_entry (fuel : Nat) (t0 : SpannedToken) (ts : List SpannedToken)
    (c : Span) (td : Bool) (hguard : notDispatch ts = true) :
    parse_ops (fuel + 1) ⟨⟨ts, c⟩, td⟩ t0 =
      match parse_expr fuel ⟨⟨ts, c⟩, td⟩ (some t0) with
      | none => none
      | some (Except.error e) => some (Except.error e)
      | some (Except.ok (buf, p2)) => parse_ops_loop fuel p2 buf := by
  rcases ts with _ | ⟨⟨tok, s⟩, ts⟩
  · rfl
  · cases tok <;> first
      | rfl
      | simp [notDispatch] at hguard

/-- A statement made of one well-formed, dispatch-safe primary followed by
fold pairs and nothing else parses to the left-to-right fold of the
primaries, returned as a bare expression-statement. -/
theorem parse_prim_folds (a : Prim) (R : Folds) (hwa : Prim.WF a = true)
    (hwR : Folds.WF R = true) (hd : Prim.dispatchSafe a = true) (td : Bool) :
    parse td (a.tokens ++ Folds.tokens R)
      = some (Except.ok (ParseNode.expr (Folds.den td (Prim.den td a) R),
          ⟨⟨[], Folds.lastSpan a.lastSpan R⟩, td⟩)) := by
  rw [Prim.tokens, List.cons_append, parse]
  simp only [List.length_cons]
  rw [show 3 * ((a.tailTokens ++ Folds.tokens R).length + 1) + 3
      = (3 * (a.tailTokens ++ Folds.tokens R).length + 5) + 1 from by omega]
  rw [parse_ops_entry _ _ _ _ _ (prim_guard a hwa hd _ (notDispatch_folds R))]
  have hle1 := prim_fuel_le a
  have hle2 := folds_fuel_le R
  rw [prim_ok a hwa _ (by simp only [List.length_append]; omega) td (Folds.tokens R)]
  simp only []
  rw [folds_ops_end R hwR _ (by simp only [List.length_append]; omega) td
    (Prim.den td a) a.lastSpan]

/-! ## The themed rewrite -/

theorem startsLang_shape (m : List Char) (h : startsLang m = true) :
    ∃ r, m = 'l' :: 'a' :: 'n' :: 'g' :: r := by
  rw [startsLang.eq_def] at h
  split at h
  · next r => exact ⟨r, rfl⟩
  · exact absurd h (by simp)

theorem replaceLang_cons (c : Char) (rest : List Char)
    (h1 : startsLang (c :: rest) = false) :
    replaceLang (c :: rest) = c :: replaceLang rest := by
  rw [replaceLang.eq_def]
  split
  · rename_i heq
    exact absurd heq (by simp)
  · rename_i heq
    obtain ⟨h2, h3⟩ := List.cons_eq_cons.mp heq
    rw [h2, h3] at h1
    simp [startsLang] at h1
  · rename_i heq
    obtain ⟨h2, h3⟩ := List.cons_eq_cons.mp heq
    subst h2
    subst h3
    rfl

/-- Replacement is the identity on text containing no occurrence of
`lang`. -/
theorem replaceLang_id (l : List Char) (h : containsLang l = false) : replaceLang l = l := by
  induction l using replaceLang.induct with
  | case1 => rfl
  | case2 rest ih => simp [containsLang, startsLang] at h
  | case3 c rest h1 ih =>
    rw [containsLang] at h
    rcases Bool.or_eq_false_iff.mp h with ⟨hs, hc⟩
    rw [replaceLang_cons c rest hs, ih hc]

theorem replaceLang_head (rest : List Char) (c : Char) (X : List Char)
    (hc : c ≠ 's') (h : replaceLang rest = c :: X) :
    ∃ r, rest = c :: r ∧ X = replaceLang r := by
  induction rest using replaceLang.induct with
  | case1 => exact absurd h (by simp [replaceLang])
  | case2 r ih =>
    rw [replaceLang] at h
    injection h with h1 _
    exact absurd h1.symm hc
  | case3 c2 r h1 ih =>
    have h1' : startsLang (c2 :: r) = false := by
      rw [startsLang.eq_def]
      split
      · rename_i heq
        rw [List.cons_eq_cons] at heq
        exact absurd (h1 _ heq.1 (by rw [heq.2])) not_false
      · rfl
    rw [replaceLang_cons c2 r h1'] at h
    injection h with h2 h3
    exact ⟨r, by rw [h2], h3.symm⟩

theorem startsLang_replaceLang (l : List Char) : startsLang (replaceLang l) = false := by
  induction l using replaceLang.induct with
  | case1 => rfl
  | case2 rest ih => rw [replaceLang]; rfl
  | case3 c rest h1 ih =>
    have h1' : startsLang (c :: rest) = false := by
      rw [startsLang.eq_def]
      split
      · rename_i heq
        rw [List.cons_eq_cons] at heq
        exact absurd (h1 _ heq.1 (by rw [heq.2])) not_false
      · rfl
    rw [replaceLang_cons c rest h1']
    by_contra htrue
    rw [Bool.not_eq_false] at htrue
    obtain ⟨r, hr⟩ := startsLang_shape _ htrue
    rw [List.cons_eq_cons] at hr
    obtain ⟨r1, hrest1, hX1⟩ := replaceLang_head rest 'a' _ (by decide) hr.2
    obtain ⟨r2, hrest2, hX2⟩ := replaceLang_head r1 'n' _ (by decide) hX1.symm
    obtain ⟨r3, hrest3, _⟩ := replaceLang_head r2 'g' _ (by decide) hX2.symm
    exact h1 r3 hr.1 (by rw [hrest1, hrest2, hrest3])

/-- Replacement output contains no occurrence of `lang` (the replacement
`script` contains neither an `l` nor a `g`, so no new occurrence can be
created at a boundary). -/
theorem containsLang_replaceLang (l : List Char) : containsLang (replaceLang l) = false := by
  induction l using replaceLang.induct with
  | case1 => rfl
  | case2 rest ih =>
    rw [replaceLang]
    simp only [containsLang, startsLang, Bool.false_or]
    exact ih
  | case3 c rest h1 ih =>
    have h1' : startsLang (c :: rest) = false := by
      rw [startsLang.eq_def]
      split
      · rename_i heq
        rw [List.cons_eq_cons] at heq
        exact absurd (h1 _ heq.1 (by rw [heq.2])) not_false
      · rfl
    have hs := startsLang_replaceLang (c :: rest)
    rw [replaceLang_cons c rest h1'] at hs ⊢
    rw [containsLang, hs, ih]
    rfl




theorem BinOp.node_leftChild (op : BinOp) (l r : Expr) :
    (op.node l r).leftChild = some l := by
  cases op <;> rfl

theorem BinOp.node_size (op : BinOp) (l r : Expr) :
    (op.node l r).size = l.size + r.size + 1 := by
  cases op <;> rfl

/-- A left-associated double fold is never equal to the right-associated
tree over the same operands. -/
theorem node_left_ne_right (op1 op2 : BinOp) (A B C : Expr) :
    op2.node (op1.node A B) C ≠ op1.node A (op2.node B C) := by
  intro h
  have h1 := congrArg Expr.leftChild h
  rw [BinOp.node_leftChild, BinOp.node_leftChild] at h1
  have h2 : op1.node A B = A := by injection h1
  have h3 := congrArg Expr.size h2
  rw [BinOp.node_size] at h3
  omega

/-- A binary fold node is never a logical-not node. -/
theorem node_ne_not (op : BinOp) (l r e : Expr) (s : Span) :
    op.node l r ≠ Expr.Not e s := by
  cases op <;> simp [BinOp.node]

/-- The function-call argument loop falls into its `parse_expr` arm on any
fetched token other than a right parenthesis. -/
theorem fn_call_loop_step (fuel : Nat) (tok : Token) (s : Span) (ts : List SpannedToken)
    (c : Span) (td : Bool) (iden : Iden) (args : List Expr)
    (hnot : tok ≠ Token.RightParenthesis) :
    fn_call_loop (fuel + 1) ⟨⟨(tok, s) :: ts, c⟩, td⟩ iden args =
      match parse_expr fuel ⟨⟨ts, s⟩, td⟩ (some (tok, s)) with
      | none => none
      | some (Except.error e) => some (Except.error e)
      | some (Except.ok (arg, p3)) =>
        match p3.next with
        | (some (Token.RightParenthesis, _), p4) => fn_call_finish p4 iden (args ++ [arg])
        | (some (Token.Comma, _), p4) => fn_call_loop fuel p4 iden (args ++ [arg])
        | (_, p4) => some (Except.error (p4.unexpected_token none)) := by
  cases tok <;> first
    | rfl
    | exact absurd rfl hnot

/-- A logical-not primary is dispatch-safe when its operand does not begin
with a left parenthesis. -/
theorem dispatchSafe_lognot (s : Span) (p : Prim)
    (hx : p.headTok.1 ≠ Token.LeftParenthesis) :
    Prim.dispatchSafe (Prim.lognot s p) = true := by
  simp only [Prim.dispatchSafe]

/-! ## The claims -/

/-- C1 (amended): for primaries `a`, `b`, `c` and operators `OP1`, `OP2`,
provided the statement's second token is not a left parenthesis (i.e. `a`
does not begin `((` or `!(`, which the entry peek of `parse_ops` diverts
to the function-call reader), parsing the statement `a OP1 b OP2 c` yields
the left-associated tree `(a OP1 b) OP2 c` - each fold step consumes one
operator and one right-hand primary - and never the right-associated tree
`a OP1 (b OP2 c)`. -/
theorem claim1_theorem (a b c : Prim) (op1 op2 : BinOp) (s1 s2 : Span) (td : Bool)
    (hwa : Prim.WF a = true) (hwb : Prim.WF b = true) (hwc : Prim.WF c = true)
    (hd : Prim.dispatchSafe a = true) :
    parsedNode (parse td
        (a.tokens ++ ((op1.token, s1) :: (b.tokens ++ ((op2.token, s2) :: c.tokens)))))
      = some (Except.ok (ParseNode.expr
          (op2.node (op1.node (Prim.den td a) (Prim.den td b)) (Prim.den td c))))
    ∧ op2.node (op1.node (Prim.den td a) (Prim.den td b)) (Prim.den td c)
      ≠ op1.node (Prim.den td a) (op2.node (Prim.den td b) (Prim.den td c)) := by
  constructor
  · have hstream : a.tokens ++ ((op1.token, s1) :: (b.tokens ++ ((op2.token, s2) :: c.tokens)))
        = a.tokens ++ Folds.tokens (Folds.cons op1 s1 b (Folds.cons op2 s2 c Folds.nil)) := by
      simp [Folds.tokens, Prim.tokens, List.append_assoc, List.append_nil, List.cons_append]
    rw [hstream]
    rw [parse_prim_folds a _ hwa (by simp [Folds.WF, hwb, hwc]) hd td]
    simp [parsedNode, Folds.den]
  · exact node_left_ne_right op1 op2 _ _ _

/-- C1 counterexample: for the primary `a = ((1))` (a doubly parenthesized
group), `a + 2 * 3` does not parse to the left-associated tree; the entry
peek of `parse_ops` sees `a`'s second token, a left parenthesis, diverts
the statement to the function-call reader, and fails with
`InvalidIdentifier`. -/
theorem claim1_counterexample :
    errorKindOf (parse false [(Token.LeftParenthesis, ⟨0, 1⟩), (Token.LeftParenthesis, ⟨1, 2⟩),
        (Token.Integer 1, ⟨2, 3⟩), (Token.RightParenthesis, ⟨3, 4⟩),
        (Token.RightParenthesis, ⟨4, 5⟩), (Token.Addition, ⟨6, 7⟩), (Token.Integer 2, ⟨8, 9⟩),
        (Token.Multiply, ⟨10, 11⟩), (Token.Integer 3, ⟨12, 13⟩)])
      = some ErrorKind.InvalidIdentifier
    ∧ parsedNode (parse false [(Token.LeftParenthesis, ⟨0, 1⟩), (Token.LeftParenthesis, ⟨1, 2⟩),
        (Token.Integer 1, ⟨2, 3⟩), (Token.RightParenthesis, ⟨3, 4⟩),
        (Token.RightParenthesis, ⟨4, 5⟩), (Token.Addition, ⟨6, 7⟩), (Token.Integer 2, ⟨8, 9⟩),
        (Token.Multiply, ⟨10, 11⟩), (Token.Integer 3, ⟨12, 13⟩)])
      ≠ some (Except.ok (ParseNode.expr
          (BinOp.mul.node (BinOp.add.node (Expr.Literal (Value.Int 1) ⟨2, 3⟩)
            (Expr.Literal (Value.Int 2) ⟨8, 9⟩)) (Expr.Literal (Value.Int 3) ⟨12, 13⟩)))) := by
  constructor
  · decide
  · decide

/-- C1 witness: `1 + 2 * 3` parses to `(1 + 2) * 3`. -/
theorem claim1_witness :
    parsedNode (parse false
        ((Prim.atom (Token.Integer 1) ⟨0, 1⟩).tokens ++ ((BinOp.add.token, ⟨2, 3⟩) ::
          ((Prim.atom (Token.Integer 2) ⟨4, 5⟩).tokens ++ ((BinOp.mul.token, ⟨6, 7⟩) ::
            (Prim.atom (Token.Integer 3) ⟨8, 9⟩).tokens)))))
      = some (Except.ok (ParseNode.expr
          (BinOp.mul.node (BinOp.add.node (Prim.den false (Prim.atom (Token.Integer 1) ⟨0, 1⟩))
            (Prim.den false (Prim.atom (Token.Integer 2) ⟨4, 5⟩)))
            (Prim.den false (Prim.atom (Token.Integer 3) ⟨8, 9⟩)))))
    ∧ BinOp.mul.node (BinOp.add.node (Prim.den false (Prim.atom (Token.Integer 1) ⟨0, 1⟩))
        (Prim.den false (Prim.atom (Token.Integer 2) ⟨4, 5⟩)))
        (Prim.den false (Prim.atom (Token.Integer 3) ⟨8, 9⟩))
      ≠ BinOp.add.node (Prim.den false (Prim.atom (Token.Integer 1) ⟨0, 1⟩))
          (BinOp.mul.node (Prim.den false (Prim.atom (Token.Integer 2) ⟨4, 5⟩))
            (Prim.den false (Prim.atom (Token.Integer 3) ⟨8, 9⟩))) :=
  claim1_theorem (Prim.atom (Token.Integer 1) ⟨0, 1⟩) (Prim.atom (Token.Integer 2) ⟨4, 5⟩)
    (Prim.atom (Token.Integer 3) ⟨8, 9⟩) BinOp.add BinOp.mul ⟨2, 3⟩ ⟨6, 7⟩ false
    (by decide) (by decide) (by decide) (by decide)

/-- C4: a parenthesized group whose token stream ends before a closing
right parenthesis - an inner primary followed by zero or more fold pairs
and then end of input - makes the parenthesis reader return the
accumulated (folded) expression successfully rather than fail. -/
theorem claim4_theorem (P : Prim) (R : Folds) (hwP : Prim.WF P = true)
    (hwR : Folds.WF R = true) (fuel : Nat) (hf : Prim.fuelF P + Folds.fuelF R + 1 ≤ fuel)
    (td : Bool) (c : Span) :
    parse_paren fuel ⟨⟨P.tokens ++ Folds.tokens R, c⟩, td⟩
      = some (Except.ok (Folds.den td (Prim.den td P) R,
          ⟨⟨[], Folds.lastSpan P.lastSpan R⟩, td⟩)) := by
  have hp1 := prim_fuel_pos P
  have hp2 := folds_fuel_pos R
  obtain ⟨f, rfl⟩ : ∃ f, fuel = f + 1 := ⟨fuel - 1, by omega⟩
  have h1 := prim_ok P hwP f (by omega) td (Folds.tokens R)
  have h2 := folds_paren_eos R hwR f (by omega) td (Prim.den td P) P.lastSpan
  rw [Prim.tokens, List.cons_append]
  simp only [parse_paren, Parser.next, Lexer.next]
  rw [h1]
  simp only []
  rw [h2]

/-- C4 witness: the parenthesis reader on `1 + 2` followed by end of input
(the stream of `(1 + 2` after its opening parenthesis) returns the
accumulated sum. -/
theorem claim4_witness :
    parse_paren 10 ⟨⟨(Prim.atom (Token.Integer 1) ⟨1, 2⟩).tokens ++
        Folds.tokens (Folds.cons BinOp.add ⟨3, 4⟩ (Prim.atom (Token.Integer 2) ⟨5, 6⟩) Folds.nil),
        ⟨0, 1⟩⟩, false⟩
      = some (Except.ok (Folds.den false
          (Prim.den false (Prim.atom (Token.Integer 1) ⟨1, 2⟩))
          (Folds.cons BinOp.add ⟨3, 4⟩ (Prim.atom (Token.Integer 2) ⟨5, 6⟩) Folds.nil),
          ⟨⟨[], Folds.lastSpan (Prim.atom (Token.Integer 1) ⟨1, 2⟩).lastSpan
            (Folds.cons BinOp.add ⟨3, 4⟩ (Prim.atom (Token.Integer 2) ⟨5, 6⟩) Folds.nil)⟩,
            false⟩)) :=
  claim4_theorem (Prim.atom (Token.Integer 1) ⟨1, 2⟩)
    (Folds.cons BinOp.add ⟨3, 4⟩ (Prim.atom (Token.Integer 2) ⟨5, 6⟩) Folds.nil)
    (by decide) (by decide) 10 (by decide) false ⟨0, 1⟩

/-- C5 (amended): for primaries `a`, `b` and an operator `OP`, provided
`a` is not itself a parenthesized group (a statement beginning `!(` is
diverted to the function-call reader by the entry peek of `parse_ops` and
fails with `InvalidIdentifier`), `!a OP b` parses to `(not a) OP b` -
logical-not binds to exactly one primary - never to `not (a OP b)`, and
the not-node's span runs from the start of the `!` token to the end of the
inner expression's span. -/
theorem claim5_theorem (a b : Prim) (op : BinOp) (s s1 : Span) (td : Bool)
    (hwa : Prim.WF a = true) (hwb : Prim.WF b = true)
    (hna : a.headTok.1 ≠ Token.LeftParenthesis) :
    parsedNode (parse td ((Token.LogNot, s) :: (a.tokens ++ ((op.token, s1) :: b.tokens))))
      = some (Except.ok (ParseNode.expr
          (op.node (Expr.Not (Prim.den td a) ⟨s.start, (Prim.den td a).span.stop⟩)
            (Prim.den td b))))
    ∧ (∀ sp2 : Span,
        op.node (Expr.Not (Prim.den td a) ⟨s.start, (Prim.den td a).span.stop⟩) (Prim.den td b)
          ≠ Expr.Not (op.node (Prim.den td a) (Prim.den td b)) sp2)
    ∧ (Expr.Not (Prim.den td a) ⟨s.start, (Prim.den td a).span.stop⟩).span
      = ⟨s.start, (Prim.den td a).span.stop⟩ := by
  refine ⟨?_, fun sp2 => node_ne_not op _ _ _ sp2, rfl⟩
  have hstream : (Token.LogNot, s) :: (a.tokens ++ ((op.token, s1) :: b.tokens))
      = (Prim.lognot s a).tokens ++ Folds.tokens (Folds.cons op s1 b Folds.nil) := by
    simp [Folds.tokens, Prim.tokens, Prim.tailTokens, Prim.headTok_lognot,
      List.append_assoc, List.append_nil, List.cons_append]
  rw [hstream]
  rw [parse_prim_folds (Prim.lognot s a) _ (by rw [Prim.WF]; exact hwa)
    (by simp [Folds.WF, hwb]) (dispatchSafe_lognot s a hna) td]
  simp [parsedNode, Folds.den, Prim.den]

/-- C5 counterexample: for the parenthesized primary `a = (1)`, the input
`!a + 2` (i.e. `!(1) + 2`) does not parse to `(not (1)) + 2`: the entry
peek of `parse_ops` sees the left parenthesis after `!`, diverts the
statement to the function-call reader, and fails with
`InvalidIdentifier`. -/
theorem claim5_counterexample :
    errorKindOf (parse false [(Token.LogNot, ⟨0, 1⟩), (Token.LeftParenthesis, ⟨1, 2⟩),
        (Token.Integer 1, ⟨2, 3⟩), (Token.RightParenthesis, ⟨3, 4⟩), (Token.Addition, ⟨5, 6⟩),
        (Token.Integer 2, ⟨7, 8⟩)])
      = some ErrorKind.InvalidIdentifier
    ∧ parsedNode (parse false [(Token.LogNot, ⟨0, 1⟩), (Token.LeftParenthesis, ⟨1, 2⟩),
        (Token.Integer 1, ⟨2, 3⟩), (Token.RightParenthesis, ⟨3, 4⟩), (Token.Addition, ⟨5, 6⟩),
        (Token.Integer 2, ⟨7, 8⟩)])
      ≠ some (Except.ok (ParseNode.expr
          (BinOp.add.node (Expr.Not (Expr.Literal (Value.Int 1) ⟨2, 3⟩) ⟨0, 3⟩)
            (Expr.Literal (Value.Int 2) ⟨7, 8⟩)))) := by
  constructor
  · decide
  · decide

/-- C5 witness: `!1 + 2` parses to `(not 1) + 2` with the not-node spanning
from the `!` to the end of the literal. -/
theorem claim5_witness :
    parsedNode (parse false ((Token.LogNot, ⟨0, 1⟩) ::
        ((Prim.atom (Token.Integer 1) ⟨1, 2⟩).tokens ++ ((BinOp.add.token, ⟨3, 4⟩) ::
          (Prim.atom (Token.Integer 2) ⟨5, 6⟩).tokens))))
      = some (Except.ok (ParseNode.expr
          (BinOp.add.node (Expr.Not (Prim.den false (Prim.atom (Token.Integer 1) ⟨1, 2⟩))
            ⟨(0 : Nat), (Prim.den false (Prim.atom (Token.Integer 1) ⟨1, 2⟩)).span.stop⟩)
            (Prim.den false (Prim.atom (Token.Integer 2) ⟨5, 6⟩)))))
    ∧ (∀ sp2 : Span,
        BinOp.add.node (Expr.Not (Prim.den false (Prim.atom (Token.Integer 1) ⟨1, 2⟩))
          ⟨(0 : Nat), (Prim.den false (Prim.atom (Token.Integer 1) ⟨1, 2⟩)).span.stop⟩)
          (Prim.den false (Prim.atom (Token.Integer 2) ⟨5, 6⟩))
          ≠ Expr.Not (BinOp.add.node (Prim.den false (Prim.atom (Token.Integer 1) ⟨1, 2⟩))
              (Prim.den false (Prim.atom (Token.Integer 2) ⟨5, 6⟩))) sp2)
    ∧ (Expr.Not (Prim.den false (Prim.atom (Token.Integer 1) ⟨1, 2⟩))
        ⟨(0 : Nat), (Prim.den false (Prim.atom (Token.Integer 1) ⟨1, 2⟩)).span.stop⟩).span
      = ⟨(0 : Nat), (Prim.den false (Prim.atom (Token.Integer 1) ⟨1, 2⟩)).span.stop⟩ :=
  claim5_theorem (Prim.atom (Token.Integer 1) ⟨1, 2⟩) (Prim.atom (Token.Integer 2) ⟨5, 6⟩)
    BinOp.add ⟨0, 1⟩ ⟨3, 4⟩ false (by decide) (by decide) (by decide)

/-- C8: the claim that every binary node built by the fold step carries a
span covering both operand spans fails on the code: the `gen_infix!` macro
builds `Expr::Add { left, right }` with no span at all (every other node
in `parse_expr` is built through `Expr::new(kind, span)`), so the fold
node's span (the zero span, in this embedding of the missing field) does
not cover its right operand's span.  Evaluating `1 + 2`: the produced
`Add` node has the zero span while its right operand spans bytes 4-5. -/
theorem claim8_theorem :
    parse false [(Token.Integer 1, ⟨0, 1⟩), (Token.Addition, ⟨2, 3⟩), (Token.Integer 2, ⟨4, 5⟩)]
      = some (Except.ok (ParseNode.expr
          (Expr.Add (Expr.Literal (Value.Int 1) ⟨0, 1⟩) (Expr.Literal (Value.Int 2) ⟨4, 5⟩)
            ⟨0, 0⟩), ⟨⟨[], ⟨4, 5⟩⟩, false⟩))
    ∧ Span.covers
        (Expr.Add (Expr.Literal (Value.Int 1) ⟨0, 1⟩) (Expr.Literal (Value.Int 2) ⟨4, 5⟩)
          ⟨0, 0⟩).span
        (Expr.Literal (Value.Int 2) ⟨4, 5⟩).span = false := by
  constructor
  · decide
  · decide

/-- C10: an empty parenthesized group is rejected: the parenthesis reader
fetches the right parenthesis and passes it to the primary-expression
reader, which fails with `UnexpectedToken` at the right parenthesis's
span; in particular the statement `()` fails that way. -/
theorem claim10_theorem :
    (∀ (fuel : Nat) (sl srp c : Span) (rest : List SpannedToken) (td : Bool),
      parse_expr (fuel + 3) ⟨⟨(Token.RightParenthesis, srp) :: rest, c⟩, td⟩
          (some (Token.LeftParenthesis, sl))
        = some (Except.error (Error.unexpected_token srp)))
    ∧ (∀ (sl srp : Span) (td : Bool),
      parse td [(Token.LeftParenthesis, sl), (Token.RightParenthesis, srp)]
        = some (Except.error (Error.unexpected_token srp))) := by
  constructor
  · intro fuel sl srp c rest td
    rfl
  · intro sl srp td
    rfl

/-- C6: with the themed-rewrite mode active, a string-literal or identifier
token parses to a node whose payload is the token's payload with every
occurrence of `lang` replaced by `script`; with the mode inactive the
payload is unchanged; and the rewrite is idempotent: it leaves any payload
without an occurrence of `lang` - in particular any rewritten output -
unchanged. -/
theorem claim6_theorem :
    (∀ (s : String) (sp : Span),
      parse true [(Token.String s, sp)]
        = some (Except.ok (ParseNode.expr (Expr.Literal (Value.Str (tdarkReplace s)) sp),
            ⟨⟨[], sp⟩, true⟩)))
    ∧ (∀ (i : String) (sp : Span),
      parse true [(Token.Identifier i, sp)]
        = some (Except.ok (ParseNode.expr (Expr.Identifier ⟨tdarkReplace i⟩ sp),
            ⟨⟨[], sp⟩, true⟩)))
    ∧ (∀ (s : String) (sp : Span),
      parse false [(Token.String s, sp)]
        = some (Except.ok (ParseNode.expr (Expr.Literal (Value.Str s) sp), ⟨⟨[], sp⟩, false⟩)))
    ∧ (∀ (i : String) (sp : Span),
      parse false [(Token.Identifier i, sp)]
        = some (Except.ok (ParseNode.expr (Expr.Identifier ⟨i⟩ sp), ⟨⟨[], sp⟩, false⟩)))
    ∧ (∀ l : List Char, containsLang l = false → replaceLang l = l)
    ∧ (∀ l : List Char, containsLang (replaceLang l) = false)
    ∧ (∀ s : String, tdarkReplace (tdarkReplace s) = tdarkReplace s) := by
  refine ⟨fun s sp => rfl, fun i sp => rfl, fun s sp => rfl, fun i sp => rfl,
    replaceLang_id, containsLang_replaceLang, fun s => ?_⟩
  show (⟨replaceLang (replaceLang s.data)⟩ : String) = ⟨replaceLang s.data⟩
  rw [replaceLang_id _ (containsLang_replaceLang s.data)]

/-- C6 witness: parsing the string literal `"ablelang"` with the rewrite
mode active yields the payload `"ablescript"`, and rewriting the output
again changes nothing. -/
theorem claim6_witness :
    parse true [(Token.String ("ablelang"), ⟨0, 10⟩)]
      = some (Except.ok (ParseNode.expr
          (Expr.Literal (Value.Str (tdarkReplace ("ablelang"))) ⟨0, 10⟩), ⟨⟨[], ⟨0, 10⟩⟩, true⟩))
    ∧ replaceLang (("ablescript").data) = ("ablescript").data :=
  ⟨claim6_theorem.1 ("ablelang") ⟨0, 10⟩,
    claim6_theorem.2.2.2.2.1 (("ablescript").data) (by decide)⟩

/-- C7: a function-call statement `f();` parses to a call node with callee
`f` and no arguments; `f(1, 2);` parses to one with exactly the two
integer-literal arguments in source order; and an argument is exactly one
primary expression - `f(1 + 2);` fails with `UnexpectedToken` instead of
folding the operator. -/
theorem claim7_theorem :
    (∀ (f : String) (s1 s2 s3 s4 : Span) (td : Bool),
      parse td [(Token.Identifier f, s1), (Token.LeftParenthesis, s2),
          (Token.RightParenthesis, s3), (Token.Semicolon, s4)]
        = some (Except.ok (ParseNode.stmt (Stmt.FunctionCall ⟨f⟩ []), ⟨⟨[], s4⟩, td⟩)))
    ∧ (∀ (f : String) (n m : Int) (s1 s2 s3 s4 s5 s6 s7 : Span) (td : Bool),
      parse td [(Token.Identifier f, s1), (Token.LeftParenthesis, s2), (Token.Integer n, s3),
          (Token.Comma, s4), (Token.Integer m, s5), (Token.RightParenthesis, s6),
          (Token.Semicolon, s7)]
        = some (Except.ok (ParseNode.stmt (Stmt.FunctionCall ⟨f⟩
            [Expr.Literal (Value.Int n) s3, Expr.Literal (Value.Int m) s5]), ⟨⟨[], s7⟩, td⟩)))
    ∧ (∀ (f : String) (n m : Int) (s1 s2 s3 s4 s5 s6 s7 : Span) (td : Bool),
      errorKindOf (parse td [(Token.Identifier f, s1), (Token.LeftParenthesis, s2),
          (Token.Integer n, s3), (Token.Addition, s4), (Token.Integer m, s5),
          (Token.RightParenthesis, s6), (Token.Semicolon, s7)])
        = some ErrorKind.UnexpectedToken) := by
  refine ⟨fun f s1 s2 s3 s4 td => rfl, fun f n m s1 s2 s3 s4 s5 s6 s7 td => rfl,
    fun f n m s1 s2 s3 s4 s5 s6 s7 td => rfl⟩

/-- The statement fold loop fails with `UnexpectedToken` at a peeked left
parenthesis's span. -/
theorem parse_ops_loop_lparen (fuel : Nat) (sp c : Span) (ts : List SpannedToken)
    (td : Bool) (buf : Expr) :
    parse_ops_loop (fuel + 2) ⟨⟨(Token.LeftParenthesis, sp) :: ts, c⟩, td⟩ buf
      = some (Except.error (Error.unexpected_token sp)) := rfl

/-- C2 (amended): a left parenthesis where an infix operator is expected
*after a fold step* - the statement `a OP b ( ...` - fails with
`UnexpectedToken` at that parenthesis's span.  (At the position right
after the first statement token - e.g. `a ( b` - the dispatcher's entry
peek instead diverts the statement to the function-call reader, which
fails with `InvalidIdentifier` when `a` is not an identifier; see the
counterexample.) -/
theorem claim2_theorem (a b : Prim) (op : BinOp) (s1 sp : Span)
    (rest : List SpannedToken) (td : Bool)
    (hwa : Prim.WF a = true) (hwb : Prim.WF b = true)
    (hd : Prim.dispatchSafe a = true) :
    parse td (a.tokens ++ ((op.token, s1) ::
        (b.tokens ++ ((Token.LeftParenthesis, sp) :: rest))))
      = some (Except.error (Error.unexpected_token sp)) := by
  rw [Prim.tokens, List.cons_append, parse]
  simp only [List.length_cons]
  generalize hL : (a.tailTokens ++ ((op.token, s1) ::
      (b.tokens ++ ((Token.LeftParenthesis, sp) :: rest)))).length = L
  have hle1 := prim_fuel_le a
  have hle2 := prim_fuel_le b
  have hLeq : L = a.tailTokens.length + b.tailTokens.length + rest.length + 3 := by
    rw [← hL]
    simp [Prim.tokens, List.length_append, List.length_cons]
    omega
  rw [show 3 * (L + 1) + 3 = (3 * L + 5) + 1 from by omega]
  rw [parse_ops_entry _ _ _ _ _ (prim_guard a hwa hd _
    (notDispatch_cons op.token s1 _ (BinOp.token_ne op).2.2.2.1 (BinOp.token_ne op).2.2.2.2))]
  rw [prim_ok a hwa (3 * L + 5) (by omega) td
    ((op.token, s1) :: (b.tokens ++ ((Token.LeftParenthesis, sp) :: rest)))]
  simp only []
  rw [show (3 * L + 5) = (3 * L + 4) + 1 from by omega]
  rw [parse_ops_loop_step _ op.token s1 _ _ td _ (BinOp.token_ne op).2.1]
  rw [show (3 * L + 4) = (3 * L + 3) + 1 from by omega]
  rw [parse_operation_op]
  simp only [Prim.tokens, List.cons_append]
  rw [gen_infix_ok op b hwb (3 * L + 3) (by omega) td
    (op.token, s1) ((Token.LeftParenthesis, sp) :: rest) a.lastSpan (Prim.den td a)]
  simp only []
  rw [show (3 * L + 3) + 1 = (3 * L + 2) + 2 from by omega]
  rw [parse_ops_loop_lparen]

/-- C2 counterexample: in `1 ( 2` a left parenthesis appears where an infix
operator would be expected after the expression `1`, but the parse fails
with `InvalidIdentifier` (the dispatcher's entry peek sends the statement
to the function-call reader, whose callee `1` is not an identifier), not
with `UnexpectedToken` at the parenthesis's span. -/
theorem claim2_counterexample :
    errorKindOf (parse false [(Token.Integer 1, ⟨0, 1⟩), (Token.LeftParenthesis, ⟨2, 3⟩),
        (Token.Integer 2, ⟨4, 5⟩)])
      = some ErrorKind.InvalidIdentifier
    ∧ parse false [(Token.Integer 1, ⟨0, 1⟩), (Token.LeftParenthesis, ⟨2, 3⟩),
        (Token.Integer 2, ⟨4, 5⟩)]
      ≠ some (Except.error (Error.unexpected_token ⟨2, 3⟩)) := by
  constructor
  · decide
  · decide

/-- C2 witness: `1 + 2 ( 3` fails with `UnexpectedToken` at the
parenthesis's span. -/
theorem claim2_witness :
    parse false ((Prim.atom (Token.Integer 1) ⟨0, 1⟩).tokens ++ ((BinOp.add.token, ⟨2, 3⟩) ::
        ((Prim.atom (Token.Integer 2) ⟨4, 5⟩).tokens ++ ((Token.LeftParenthesis, ⟨6, 7⟩) ::
          [(Token.Integer 3, ⟨8, 9⟩)]))))
      = some (Except.error (Error.unexpected_token ⟨6, 7⟩)) :=
  claim2_theorem (Prim.atom (Token.Integer 1) ⟨0, 1⟩) (Prim.atom (Token.Integer 2) ⟨4, 5⟩)
    BinOp.add ⟨2, 3⟩ ⟨6, 7⟩ [(Token.Integer 3, ⟨8, 9⟩)] false (by decide) (by decide) (by decide)

/-- Spanned-token form of `fn_call_loop_step`. -/
theorem fn_call_loop_step2 (fuel : Nat) (t : SpannedToken) (ts : List SpannedToken)
    (c : Span) (td : Bool) (iden : Iden) (args : List Expr)
    (hnot : t.1 ≠ Token.RightParenthesis) :
    fn_call_loop (fuel + 1) ⟨⟨t :: ts, c⟩, td⟩ iden args =
      match parse_expr fuel ⟨⟨ts, t.2⟩, td⟩ (some t) with
      | none => none
      | some (Except.error e) => some (Except.error e)
      | some (Except.ok (arg, p3)) =>
        match p3.next with
        | (some (Token.RightParenthesis, _), p4) => fn_call_finish p4 iden (args ++ [arg])
        | (some (Token.Comma, _), p4) => fn_call_loop fuel p4 iden (args ++ [arg])
        | (_, p4) => some (Except.error (p4.unexpected_token none)) := by
  rcases t with ⟨tok, s⟩
  exact fn_call_loop_step fuel tok s ts c td iden args hnot

/-- C9: a trailing comma in a function-call argument list is accepted: for
any well-formed primary `e`, the statement `f(e,);` parses to a
function-call statement whose argument sequence is exactly `[e]` - the
right parenthesis fetched immediately after the comma ends the argument
loop without error. -/
theorem claim9_theorem (P : Prim) (hw : Prim.WF P = true) (f : String)
    (s0 s1 s2 s3 s4 : Span) (td : Bool) :
    parse td ((Token.Identifier f, s0) :: (Token.LeftParenthesis, s1) ::
        (P.tokens ++ [(Token.Comma, s2), (Token.RightParenthesis, s3), (Token.Semicolon, s4)]))
      = some (Except.ok (ParseNode.stmt (Stmt.FunctionCall ⟨f⟩ [Prim.den td P]),
          ⟨⟨[], s4⟩, td⟩)) := by
  rw [parse]
  simp only [List.length_cons]
  generalize hL : (P.tokens ++ [(Token.Comma, s2), (Token.RightParenthesis, s3),
      (Token.Semicolon, s4)]).length = L
  have hle := prim_fuel_le P
  have hLeq : L = P.tailTokens.length + 4 := by
    rw [← hL]
    simp [Prim.tokens, List.length_append, List.length_cons]
  rw [show 3 * (L + 1 + 1) + 3 = (3 * L + 8) + 1 from by omega]
  simp only [parse_ops, Parser.peek, Lexer.peek, List.head?]
  rw [show 3 * L + 8 = (3 * L + 7) + 1 from by omega]
  simp only [fn_call, Parser.next, Lexer.next]
  rw [show 3 * L + 7 = (3 * L + 6) + 1 from by omega]
  simp only [Prim.tokens, List.cons_append]
  rw [fn_call_loop_step2 (3 * L + 6) P.headTok _ s1 td ⟨f⟩ [] (prim_headTok_ne P hw).1]
  rw [prim_ok P hw (3 * L + 6) (by omega) td
    [(Token.Comma, s2), (Token.RightParenthesis, s3), (Token.Semicolon, s4)]]
  simp only [Parser.next, Lexer.next]
  rw [show 3 * L + 6 = (3 * L + 5) + 1 from by omega]
  simp [fn_call_loop, fn_call_finish, Parser.require, Parser.next, Lexer.next]

/-- C9 witness: `f(1,);` parses to a call of `f` with the single argument
`1`. -/
theorem claim9_witness :
    parse false ((Token.Identifier ("f"), ⟨0, 1⟩) :: (Token.LeftParenthesis, ⟨1, 2⟩) ::
        ((Prim.atom (Token.Integer 1) ⟨2, 3⟩).tokens ++ [(Token.Comma, ⟨3, 4⟩),
          (Token.RightParenthesis, ⟨4, 5⟩), (Token.Semicolon, ⟨5, 6⟩)]))
      = some (Except.ok (ParseNode.stmt (Stmt.FunctionCall ⟨("f")⟩
          [Prim.den false (Prim.atom (Token.Integer 1) ⟨2, 3⟩)]), ⟨⟨[], ⟨5, 6⟩⟩, false⟩)) :=
  claim9_theorem (Prim.atom (Token.Integer 1) ⟨2, 3⟩) (by decide) ("f")
    ⟨0, 1⟩ ⟨1, 2⟩ ⟨3, 4⟩ ⟨4, 5⟩ ⟨5, 6⟩ false

theorem Parser.next_tokens (p : Parser) :
    ((p.next).2).lexer.tokens = p.lexer.tokens.tail := by
  rcases p with ⟨⟨ts, c⟩, td⟩
  cases ts <;> rfl

theorem Parser.next_suffix (p : Parser) :
    ((p.next).2).lexer.tokens <:+ p.lexer.tokens := by
  rw [Parser.next_tokens]
  exact List.tail_suffix _

/-- The expression-level parsing functions only consume tokens: a
successful run leaves a suffix of the input stream. -/
theorem consume_suffix (fuel : Nat) :
    (∀ (p : Parser) (tok : Option SpannedToken) (e : Expr) (p2 : Parser),
      parse_expr fuel p tok = some (Except.ok (e, p2)) → p2.lexer.tokens <:+ p.lexer.tokens)
    ∧ (∀ (p : Parser) (e : Expr) (p2 : Parser),
      parse_paren fuel p = some (Except.ok (e, p2)) → p2.lexer.tokens <:+ p.lexer.tokens)
    ∧ (∀ (p : Parser) (buf e : Expr) (p2 : Parser),
      parse_paren_loop fuel p buf = some (Except.ok (e, p2)) →
        p2.lexer.tokens <:+ p.lexer.tokens)
    ∧ (∀ (p : Parser) (tok : Option SpannedToken) (buf e : Expr) (p2 : Parser),
      parse_operation fuel p tok buf = some (Except.ok (e, p2)) →
        p2.lexer.tokens <:+ p.lexer.tokens)
    ∧ (∀ (p : Parser) (buf : Expr) (op : BinOp) (e : Expr) (p2 : Parser),
      gen_infix_fn fuel p buf op = some (Except.ok (e, p2)) →
        p2.lexer.tokens <:+ p.lexer.tokens) := by
  induction fuel with
  | zero =>
    refine ⟨?_, ?_, ?_, ?_, ?_⟩
    · intro p tok e p2 h
      exact absurd h (by simp [parse_expr])
    · intro p e p2 h
      exact absurd h (by simp [parse_paren])
    · intro p buf e p2 h
      exact absurd h (by simp [parse_paren_loop])
    · intro p tok buf e p2 h
      exact absurd h (by simp [parse_operation])
    · intro p buf op e p2 h
      exact absurd h (by simp [gen_infix_fn])
  | succ n ih =>
    obtain ⟨ih1, ih2, ih3, ih4, ih5⟩ := ih
    refine ⟨?_, ?_, ?_, ?_, ?_⟩
    · intro p tok e p2 h
      rcases tok with _ | ⟨t, span⟩
      · exact absurd h (by simp [parse_expr])
      · cases t <;> simp only [parse_expr] at h <;>
          first
          | (simp only [Option.some.injEq, Except.ok.injEq, Prod.mk.injEq] at h
             obtain ⟨-, rfl⟩ := h
             exact List.suffix_refl _)
          | exact ih2 _ _ _ h
          | (split at h
             · exact absurd h (by simp)
             · exact absurd h (by simp)
             · rename_i expr p3 heq
               simp only [Option.some.injEq, Except.ok.injEq, Prod.mk.injEq] at h
               obtain ⟨-, rfl⟩ := h
               exact (ih1 _ _ _ _ heq).trans (Parser.next_suffix p))
          | simp at h
    · intro p e p2 h
      simp only [parse_paren] at h
      split at h
      · exact absurd h (by simp)
      · exact absurd h (by simp)
      · rename_i buf p3 heq
        exact (ih3 _ _ _ _ h).trans ((ih1 _ _ _ _ heq).trans (Parser.next_suffix p))
    · intro p buf e p2 h
      simp only [parse_paren_loop] at h
      split at h
      · simp only [Option.some.injEq, Except.ok.injEq, Prod.mk.injEq] at h
        obtain ⟨-, rfl⟩ := h
        exact Parser.next_suffix p
      · simp only [Option.some.injEq, Except.ok.injEq, Prod.mk.injEq] at h
        obtain ⟨-, rfl⟩ := h
        exact List.suffix_refl _
      · split at h
        · exact absurd h (by simp)
        · exact absurd h (by simp)
        · rename_i buf2 p3 heq
          exact (ih3 _ _ _ _ h).trans (ih4 _ _ _ _ _ heq)
    · intro p tok buf e p2 h
      simp only [parse_operation] at h
      split at h <;>
        first
        | exact ih5 _ _ _ _ _ h
        | exact absurd h (by simp)
    · intro p buf op e p2 h
      simp only [gen_infix_fn] at h
      split at h
      · exact absurd h (by simp)
      · exact absurd h (by simp)
      · rename_i right p3 heq
        simp only [Option.some.injEq, Except.ok.injEq, Prod.mk.injEq] at h
        obtain ⟨-, rfl⟩ := h
        exact ((ih1 _ _ _ _ heq).trans (Parser.next_suffix _)).trans (Parser.next_suffix p)

/-- A successful run of the assignment fold loop peeked a semicolon in its
input stream. -/
theorem parse_assignment_loop_semi (fuel : Nat) :
    ∀ (p : Parser) (iden : Iden) (value : Expr) (r : ParseNode × Parser),
      parse_assignment_loop fuel p iden value = some (Except.ok r) →
      ∃ sp, (Token.Semicolon, sp) ∈ p.lexer.tokens := by
  induction fuel with
  | zero =>
    intro p iden value r h
    exact absurd h (by simp [parse_assignment_loop])
  | succ n ih =>
    intro p iden value r h
    simp only [parse_assignment_loop] at h
    split at h
    · rename_i x heq
      have hl := List.eq_cons_of_mem_head?
        (show (Token.Semicolon, x) ∈ p.lexer.tokens.head? from Option.mem_def.mpr heq)
      exact ⟨x, by rw [hl]; exact List.mem_cons_self _ _⟩
    · exact absurd h (by simp)
    · rename_i t heq
      split at h
      · exact absurd h (by simp)
      · exact absurd h (by simp)
      · rename_i value2 p3 heq2
        obtain ⟨sp, hsp⟩ := ih p3 iden value2 r h
        exact ⟨sp, ((consume_suffix n).2.2.2.1 _ _ _ _ _ heq2).subset hsp⟩

/-- A successful run of the assignment reader consumed a semicolon: there
is one in its input stream. -/
theorem parse_assignment_semi (fuel : Nat) (p : Parser) (t0 : SpannedToken)
    (r : ParseNode × Parser) (h : parse_assignment fuel p t0 = some (Except.ok r)) :
    ∃ sp, (Token.Semicolon, sp) ∈ p.lexer.tokens := by
  cases fuel with
  | zero => exact absurd h (by simp [parse_assignment])
  | succ n =>
    simp only [parse_assignment] at h
    split at h
    · rename_i i heq
      split at h
      · exact absurd h (by simp)
      · exact absurd h (by simp)
      · rename_i value p4 heq2
        obtain ⟨sp, hsp⟩ := parse_assignment_loop_semi n p4 ⟨i⟩ value r h
        have h1 := ((consume_suffix n).1 _ _ _ _ heq2).subset hsp
        have h2 := (Parser.next_suffix ((p.next).2)).subset h1
        exact ⟨sp, (Parser.next_suffix p).subset h2⟩
    · exact absurd h (by simp)

/-- An assignment statement whose value is a well-formed primary followed
by fold pairs, with the stream ending before any semicolon, fails with
`EndOfTokenStream`. -/
theorem parse_assignment_eos (x : String) (s0 s1 : Span) (P : Prim) (R : Folds)
    (hwP : Prim.WF P = true) (hwR : Folds.WF R = true) (td : Bool) :
    errorKindOf (parse td ((Token.Identifier x, s0) :: (Token.Assignment, s1) ::
        (P.tokens ++ Folds.tokens R))) = some ErrorKind.EndOfTokenStream := by
  rw [parse]
  simp only [List.length_cons]
  generalize hL : (P.tokens ++ Folds.tokens R).length = L
  have hleP := prim_fuel_le P
  have hleR := folds_fuel_le R
  have hLeq : L = P.tailTokens.length + (Folds.tokens R).length + 1 := by
    rw [← hL]
    simp [Prim.tokens, List.length_append, List.length_cons]
  rw [show 3 * (L + 1 + 1) + 3 = (3 * L + 8) + 1 from by omega]
  simp only [parse_ops, Parser.peek, Lexer.peek, List.head?]
  rw [show 3 * L + 8 = (3 * L + 7) + 1 from by omega]
  simp only [parse_assignment, Parser.next, Lexer.next, Prim.tokens, List.cons_append]
  rw [prim_ok P hwP (3 * L + 7) (by omega) td (Folds.tokens R)]
  simp only []
  rw [folds_asgn_eos R hwR (3 * L + 7) (by omega) td ⟨x⟩ (Prim.den td P) P.lastSpan]
  rfl

/-- C3: an assignment statement whose token stream ends before a semicolon
is reached - `x = e` for any well-formed primary-and-fold value `e`, with
no further tokens - fails with `EndOfTokenStream`; and the assignment
reader never succeeds without a semicolon: any successful run of
`parse_assignment` had a semicolon in its input stream. -/
theorem claim3_theorem :
    (∀ (x : String) (s0 s1 : Span) (P : Prim) (R : Folds) (td : Bool),
      Prim.WF P = true → Folds.WF R = true →
      errorKindOf (parse td ((Token.Identifier x, s0) :: (Token.Assignment, s1) ::
          (P.tokens ++ Folds.tokens R))) = some ErrorKind.EndOfTokenStream)
    ∧ (∀ (fuel : Nat) (p : Parser) (t0 : SpannedToken) (r : ParseNode × Parser),
        parse_assignment fuel p t0 = some (Except.ok r) →
        ∃ sp, (Token.Semicolon, sp) ∈ p.lexer.tokens) :=
  ⟨fun x s0 s1 P R td hwP hwR => parse_assignment_eos x s0 s1 P R hwP hwR td,
    parse_assignment_semi⟩

/-- C3 witness: `x = 1` with no semicolon fails with `EndOfTokenStream`,
and a successful assignment parse of `x = 1;` indeed had a semicolon in
its stream. -/
theorem claim3_witness :
    errorKindOf (parse false ((Token.Identifier ("x"), ⟨0, 1⟩) :: (Token.Assignment, ⟨2, 3⟩) ::
        ((Prim.atom (Token.Integer 1) ⟨4, 5⟩).tokens ++ Folds.tokens Folds.nil)))
      = some ErrorKind.EndOfTokenStream
    ∧ (∃ sp, (Token.Semicolon, sp) ∈
        (⟨⟨[(Token.Assignment, ⟨2, 3⟩), (Token.Integer 1, ⟨4, 5⟩), (Token.Semicolon, ⟨5, 6⟩)],
          ⟨0, 1⟩⟩, false⟩ : Parser).lexer.tokens) :=
  ⟨claim3_theorem.1 ("x") ⟨0, 1⟩ ⟨2, 3⟩ (Prim.atom (Token.Integer 1) ⟨4, 5⟩) Folds.nil false
      (by decide) (by decide),
    claim3_theorem.2 10
      ⟨⟨[(Token.Assignment, ⟨2, 3⟩), (Token.Integer 1, ⟨4, 5⟩), (Token.Semicolon, ⟨5, 6⟩)],
        ⟨0, 1⟩⟩, false⟩
      (Token.Identifier ("x"), ⟨0, 1⟩)
      (ParseNode.stmt (Stmt.VarAssignment ⟨("x")⟩ (Expr.Literal (Value.Int 1) ⟨4, 5⟩)),
        ⟨⟨[], ⟨5, 6⟩⟩, false⟩)
      (by decide)⟩
